import Mathlib

/-!
Verification development for the link-scanner crawl engine (scanner.py).

The crawl engine is shallowly embedded: pure pieces of the Python source
(rule filtering, link classification, the per-task fetch protocol, the
orchestrator drain loop) become Lean functions; the network (requests +
BeautifulSoup parsing + urljoin resolution) is an oracle parameter; the
urllib.parse helpers used by the source (urlparse, urldefrag) are modelled
from the CPython urllib.parse algorithm over character lists.

The orchestrator is modelled at the deterministic single-worker schedule
(threads = 1, FIFO queues): tasks are processed in enqueue order, which is
the completion order of a one-worker pool.
-/

namespace LinkScanner

/-! ## Global constants of scanner.py -/

/-- link follow modes (scanner.py `IGNORE`/`CHECK`/`FOLLOW`). -/
def IGNORE : Nat := 0

def CHECK : Nat := 1

def FOLLOW : Nat := 2

/-- scanner result event statuses (scanner.py `TIMEOUT`/`SKIPPED`/`COMPLETED`). -/
def TIMEOUT : Nat := 0

def SKIPPED : Nat := 1

def COMPLETED : Nat := 2

/-- scanner result event server types (scanner.py `ANY`/`INTERNAL`/`EXTERNAL`). -/
def ANY : Nat := 0

def INTERNAL : Nat := 1

def EXTERNAL : Nat := 2

/-- rule types (scanner.py `INCLUDE = False`, `EXCLUDE = True`). -/
def INCLUDE : Bool := false

def EXCLUDE : Bool := true

/-- scanner.py `ACCEPT_SCHEMES = ('http', 'https')`. -/
def ACCEPT_SCHEMES : List String := ["http", "https"]

/-- scanner.py `IGNORE_SCHEMES = ('mailto', 'javascript')`. -/
def IGNORE_SCHEMES : List String := ["mailto", "javascript"]

/-- scanner.py `CONTENT_TYPES = ('text/html', 'application/xhtml+xml')`. -/
def CONTENT_TYPES : List String := ["text/html", "application/xhtml+xml"]

/-! ## Model of urllib.parse (urlsplit components used by the source)

scanner.py only reads `.scheme`, `.netloc` and `.query` of a parse result,
and uses `urldefrag` to strip fragments.  The CPython `urlsplit` algorithm
is: split a scheme at the first `:` when everything before it is a scheme
character; split a `//`-led netloc up to the first `/`, `?` or `#`; then
split the fragment at the first `#`; then the query at the first `?`. -/

/-- CPython `scheme_chars`: letters, digits, `+`, `-`, `.`. -/
def schemeChar (c : Char) : Bool :=
  c.isAlpha || c.isDigit || c = '+' || c = '-' || c = '.'

/-- Split a character list at the first occurrence of `sep`; `none` when
`sep` does not occur. -/
def splitOnFirst (sep : Char) : List Char → Option (List Char × List Char)
  | [] => none
  | c :: cs =>
    if c = sep then some ([], cs)
    else
      match splitOnFirst sep cs with
      | none => none
      | some (a, b) => some (c :: a, b)

/-- Consume a netloc: everything up to the first `/`, `?` or `#`
(CPython `_splitnetloc`). -/
def takeNetloc : List Char → List Char × List Char
  | [] => ([], [])
  | c :: cs =>
    if c = '/' ∨ c = '?' ∨ c = '#' then ([], c :: cs)
    else
      let (a, b) := takeNetloc cs
      (c :: a, b)

/-- Scheme stage of `urlsplit`: `(some s, rest)` when the url is
`s ++ ":" ++ rest` with `s` nonempty and all scheme characters. -/
def splitScheme (u : List Char) : Option (List Char) × List Char :=
  match splitOnFirst ':' u with
  | none => (none, u)
  | some (pre, post) =>
    if pre ≠ [] ∧ pre.all schemeChar then (some pre, post) else (none, u)

/-- Netloc stage of `urlsplit`: applies only after a leading `//`
(Python `url[:2] == '//'`). -/
def splitNetloc (u : List Char) : Option (List Char) × List Char :=
  match u with
  | c1 :: c2 :: rest =>
    if c1 = '/' ∧ c2 = '/' then (some (takeNetloc rest).1, (takeNetloc rest).2)
    else (none, u)
  | _ => (none, u)

/-- Fragment stage: split at the first `#` when present. -/
def splitFragment (u : List Char) : List Char × Option (List Char) :=
  match splitOnFirst '#' u with
  | none => (u, none)
  | some (a, b) => (a, some b)

/-- Query stage: split at the first `?` when present. -/
def splitQuery (u : List Char) : List Char × Option (List Char) :=
  match splitOnFirst '?' u with
  | none => (u, none)
  | some (a, b) => (a, some b)

/-- The components of a parsed URL that scanner.py reads. -/
structure UrlParts where
  scheme : String
  netloc : String
  path : String
  query : String
  fragment : String
  deriving DecidableEq, Repr

/-- CPython `urlsplit` over a character list. -/
def urlsplitChars (u : List Char) : UrlParts :=
  let s1 := splitScheme u
  let s2 := splitNetloc s1.2
  let s3 := splitFragment s2.2
  let s4 := splitQuery s3.1
  { scheme := ((s1.1.getD []).map Char.toLower).asString
    netloc := (s2.1.getD []).asString
    path := s4.1.asString
    query := (s4.2.getD []).asString
    fragment := (s3.2.getD []).asString }

/-- Model of `urllib.parse.urlparse` restricted to the fields the source
reads (scheme, netloc, query). -/
def urlparse (s : String) : UrlParts :=
  urlsplitChars s.data

/-- Model of `urllib.parse.urldefrag`: the part before the first `#`
together with the fragment after it (for URLs on which CPython's
parse/unparse round trip is the identity). -/
def urldefrag (s : String) : String × String :=
  match splitOnFirst '#' s.data with
  | none => (s, "")
  | some (a, b) => (a.asString, b.asString)

/-! ## Rules and the rule filter -/

/-- One user rule: condition (`INCLUDE`/`EXCLUDE`), scope
(`ANY`/`INTERNAL`/`EXTERNAL`), and the compiled pattern, abstracted as the
Boolean matching function `re.search(pattern, link)` as a truthiness test. -/
structure Rule where
  condition : Bool
  scope : Nat
  search : String → Bool

/-- Scanner.check_rules: iterate rules in order; skip rules for another
server type; reject at the first `INCLUDE` rule the link does not match or
`EXCLUDE` rule it does match; fall through to an accepting (falsy) result. -/
def check_rules (rules : List Rule) (link : String) (server : Nat) : Bool :=
  match rules with
  | [] => false
  | r :: rest =>
    if r.scope ≠ ANY ∧ server ≠ r.scope then check_rules rest link server
    else if r.condition = INCLUDE ∧ r.search link = false then true
    else if r.condition = EXCLUDE ∧ r.search link = true then true
    else check_rules rest link server

/-! ## Tasks, events and the network oracle -/

/-- One unit of work (scanner.py Task).  Fields mirror `Task.__init__`; the
extra field `key` is instrumentation only: it records the normalized
(fragment-stripped) visited-set entry this task was created for (the seed
URL for the seed task), so that trace properties can speak about "the event
resulting from a discovered link".  It never influences control flow. -/
structure Task where
  link : String
  source : String
  depth : Nat
  timeout : Nat
  redirect : Bool
  server : Nat
  follow : Bool
  links : List String
  status : Nat
  error : Option String
  redirected : Bool
  key : String
  deriving DecidableEq, Repr

/-- Instrumentation: which Scanner emitter produced an event
(`tell` called from `run`, `skip`, `error` or `done`). -/
inductive Site where
  | result
  | skipped
  | errored
  | done
  deriving DecidableEq, Repr

/-- scanner.py ResultEvent (status, link, source, server, error); `site`
and `key` are instrumentation mirroring the emitting call site and the
normalized link the event accounts for (none for the Done event). -/
structure ResultEvent where
  status : Nat
  link : String
  source : String
  server : Nat
  error : Option String
  site : Site
  key : Option String
  deriving DecidableEq, Repr

/-- Response metadata of a HEAD request: final resolved url
(`response.url`), status code, and the Content-Type header (already
defaulted to the empty string as in `headers.get('Content-Type', '')`). -/
structure HeadResponse where
  url : String
  status : Nat
  contentType : String
  deriving DecidableEq, Repr

/-- The network oracle.  `head link timeout redirect` models
`requests.head(link, timeout=..., allow_redirects=...)`; an `Except.error`
is a raised requests exception.  `get url timeout redirect` models the
content GET of the same task combined with the BeautifulSoup extraction
loops: it returns the absolute links produced by resolving the `href`/`src`
attributes of the page's `a`/`img`/`link` tags against the fetched URL. -/
structure Network where
  head : String → Nat → Bool → Except String HeadResponse
  get : String → Nat → Bool → Except String (List String)

/-- ASCII whitespace stripped by Python `str.strip()`. -/
def pySpace (c : Char) : Bool :=
  c = ' ' || c = '\t' || c = '\n' || c = '\r' || c = '\x0b' || c = '\x0c'

/-- Python `str.strip()` (whitespace at both ends). -/
def pyStrip (s : String) : String :=
  (((s.data.dropWhile pySpace).reverse.dropWhile pySpace).reverse).asString

/-- Python `str.startswith` on a single prefix candidate. -/
def listIsPfx : List Char → List Char → Bool
  | _, [] => true
  | [], _ :: _ => false
  | c :: cs, p :: ps => c = p && listIsPfx cs ps

def strStartsWith (s p : String) : Bool :=
  listIsPfx s.data p.data

/-- Python `content_type.strip().startswith(CONTENT_TYPES)` (the strip is
applied where the source computes `content_type`). -/
def contentTypeOk (ct : String) : Bool :=
  CONTENT_TYPES.any (fun p => strStartsWith (pyStrip ct) p)

/-- Task.run: HEAD first; record final url and status; stop for
reachability-only tasks (`follow` false), error statuses and non-HTML
content types; otherwise GET and collect the page's links and set the
`redirected` flag.  Any oracle failure is caught into `error`. -/
def Task.run (net : Network) (t : Task) : Task :=
  match net.head t.link t.timeout t.redirect with
  | .error e => { t with error := some e }
  | .ok resp =>
    let t1 := { t with link := resp.url, status := resp.status }
    if t1.follow = false then t1
    else if 400 ≤ t1.status then t1
    else if contentTypeOk resp.contentType = false then t1
    else
      match net.get t1.link t1.timeout t1.redirect with
      | .error e => { t1 with error := some e }
      | .ok ls =>
        { t1 with links := t1.links ++ ls, redirected := t.link ≠ t1.link }

/-! ## Scanner configuration and state -/

/-- The options snapshot a Scanner is constructed from (scanner.py
`Scanner.__init__`); `threads` and `delay` are carried but do not affect
the deterministic single-worker model. -/
structure ScannerConfig where
  url : String
  depth : Nat
  threads : Nat
  delay : Nat
  timeout : Nat
  redirect : Bool
  query : Bool
  external : Nat
  internal : Nat
  rules : List Rule

/-- `self.domain = urllib.parse.urlparse(self.url).netloc`. -/
def scannerDomain (cfg : ScannerConfig) : String :=
  (urlparse cfg.url).netloc

/-- The orchestrator-owned mutable state: the FIFO task queue (todo/done
queues of a one-worker pool collapse to one list), the visited-link set
`self.links`, and the emitted events in order. -/
structure CrawlState where
  queue : List Task
  visited : List String
  events : List ResultEvent
  deriving Repr

/-- `self.skip(link, task)`: a SKIPPED event carrying the originating
task's link as source and its server/error fields. -/
def skipEvent (link : String) (t : Task) (key : String) : ResultEvent :=
  { status := SKIPPED, link := link, source := t.link, server := t.server,
    error := t.error, site := Site.skipped, key := some key }

/-- `self.tell(task.status, task.link, task.source, task.server)`. -/
def resultEvent (t : Task) : ResultEvent :=
  { status := t.status, link := t.link, source := t.source,
    server := t.server, error := none, site := Site.result,
    key := some t.key }

/-- `self.error(task)`: a TIMEOUT event with the task's error. -/
def errorEvent (t : Task) : ResultEvent :=
  { status := TIMEOUT, link := t.link, source := t.source,
    server := t.server, error := t.error, site := Site.errored,
    key := some t.key }

/-- `self.done()`: `tell(COMPLETED, '', '', INTERNAL)`. -/
def doneEvent : ResultEvent :=
  { status := COMPLETED, link := "", source := "", server := INTERNAL,
    error := none, site := Site.done, key := none }

/-- A task as constructed at a yield of scan_links (links empty, status 0,
no error, not redirected); `key` is the visited-set entry it stands for. -/
def newTask (cfg : ScannerConfig) (key link source : String) (depth server : Nat)
    (follow : Bool) : Task :=
  { link := link, source := source, depth := depth, timeout := cfg.timeout,
    redirect := cfg.redirect, server := server, follow := follow,
    links := [], status := 0, error := none, redirected := false, key := key }

/-! ## Link classification (the body of the scan_links loop) -/

/-- The internal/external decision of the scan_links loop: an internal
link keeps the task's depth (skip when the internal policy is Ignore); an
external link increments the depth and is skipped (`none`) when the
external policy is Ignore or the *originating* task's depth exceeds the
configured max depth.  `some (depth, server, follow)` is the accepted
route. -/
def routeLink (cfg : ScannerConfig) (t : Task) (parsed : UrlParts) :
    Option (Nat × Nat × Bool) :=
  if parsed.netloc = scannerDomain cfg then
    if cfg.internal = IGNORE then none
    else some (t.depth, INTERNAL, cfg.internal == FOLLOW)
  else
    if cfg.external = IGNORE ∨ cfg.depth < t.depth then none
    else some (t.depth + 1, EXTERNAL, cfg.external == FOLLOW)

/-- One iteration of the scan_links loop on a raw discovered link:
defragment, drop duplicates, claim the visited entry, re-append a nonempty
query string, then the query / scheme / domain-policy / rule checks.
Returns the updated visited set and at most one of: a Skipped event or a
new task. -/
def classifyLink (cfg : ScannerConfig) (t : Task) (visited : List String)
    (raw : String) : List String × Option ResultEvent × Option Task :=
  let link0 := (urldefrag raw).1
  if link0 ∈ visited then (visited, none, none)
  else
    let visited1 := link0 :: visited
    let parsed := urlparse link0
    let link := if parsed.query ≠ "" then link0 ++ "?" ++ parsed.query else link0
    if parsed.query ≠ "" ∧ cfg.query = false then
      (visited1, some (skipEvent link t link0), none)
    else if ACCEPT_SCHEMES.contains parsed.scheme = false then
      if IGNORE_SCHEMES.contains parsed.scheme = false then
        (visited1, some (skipEvent link t link0), none)
      else (visited1, none, none)
    else
      match routeLink cfg t parsed with
      | none => (visited1, some (skipEvent link t link0), none)
      | some dsf =>
        if check_rules cfg.rules link dsf.2.1 then
          (visited1, some (skipEvent link t link0), none)
        else
          (visited1, none, some (newTask cfg link0 link t.link dsf.1 dsf.2.1 dsf.2.2))

/-- The scan_links loop over the whole `task.links` list, threading the
visited set and collecting the Skipped events and yielded tasks in order. -/
def scanLinksAux (cfg : ScannerConfig) (t : Task) :
    List String → List String → List String × List ResultEvent × List Task
  | [], visited => (visited, [], [])
  | raw :: raws, visited =>
    match classifyLink cfg t visited raw with
    | (v1, ev, tk) =>
      match scanLinksAux cfg t raws v1 with
      | (v2, evs, ts) => (v2, ev.toList ++ evs, tk.toList ++ ts)

/-- `Scanner.scan_links(task)` on the scanner's visited set. -/
def scanLinks (cfg : ScannerConfig) (visited : List String) (t : Task) :
    List String × List ResultEvent × List Task :=
  scanLinksAux cfg t t.links visited

/-! ## The orchestrator drain loop (Scanner.run) -/

/-- Redirect reclassification: an INTERNAL task whose fetch marked it
redirected and whose final URL's netloc differs from the crawl domain
becomes EXTERNAL. -/
def reclassify (cfg : ScannerConfig) (t : Task) : Task :=
  if t.server = INTERNAL ∧ t.redirected = true then
    if (urlparse t.link).netloc ≠ scannerDomain cfg then
      { t with server := EXTERNAL }
    else t
  else t

/-- Process one drained (already executed) task: reclassify, report an
error or a result event, gate link expansion for EXTERNAL tasks when the
external policy is not FOLLOW, otherwise scan the page links and enqueue
the yielded tasks. -/
def handleTask (cfg : ScannerConfig) (rest : List Task) (visited : List String)
    (events : List ResultEvent) (t0 : Task) : CrawlState :=
  let t := reclassify cfg t0
  if t.error.isSome then
    { queue := rest, visited := visited, events := events ++ [errorEvent t] }
  else
    let events1 := events ++ [resultEvent t]
    if t.server = EXTERNAL ∧ cfg.external ≠ FOLLOW then
      { queue := rest, visited := visited, events := events1 }
    else
      match scanLinks cfg visited t with
      | (v1, evs, ts) =>
        { queue := rest ++ ts, visited := v1, events := events1 ++ evs }

/-- One iteration of the drain loop: execute the head task on the worker
and process its result. -/
def crawlStep (cfg : ScannerConfig) (net : Network) (s : CrawlState) : CrawlState :=
  match s.queue with
  | [] => s
  | t :: rest => handleTask cfg rest s.visited s.events (Task.run net t)

/-- How a run of the drain loop ended: all pending work drained, halted by
a caller stop, or out of fuel (the model's recursion bound). -/
inductive RunExit where
  | drained
  | halted
  | fuelOut
  deriving DecidableEq, Repr

/-- The drain loop with fuel: while tasks are pending, honor a pending
stop request (checked once per drained task, as in `Scanner.run`),
otherwise process the next task.  The `stop` oracle says whether
`Scanner.stop` has been called by the time iteration `i` checks it. -/
def runLoop (cfg : ScannerConfig) (net : Network) (stop : Nat → Bool) :
    Nat → Nat → CrawlState → CrawlState × RunExit
  | 0, _, s => (s, RunExit.fuelOut)
  | fuel + 1, i, s =>
    match s.queue with
    | [] => (s, RunExit.drained)
    | _ :: _ =>
      if stop i then (s, RunExit.halted)
      else runLoop cfg net stop fuel (i + 1) (crawlStep cfg net s)

/-- Scanner construction (`Scanner.__init__`): visited set seeded with the
url, one INTERNAL follow-all seed task at depth 0. -/
def seedTask (cfg : ScannerConfig) : Task :=
  { link := cfg.url, source := "", depth := 0, timeout := cfg.timeout,
    redirect := cfg.redirect, server := INTERNAL, follow := true,
    links := [], status := 0, error := none, redirected := false,
    key := cfg.url }

def initState (cfg : ScannerConfig) : CrawlState :=
  { queue := [seedTask cfg], visited := [cfg.url], events := [] }

/-- `Scanner.run` end to end: drain from the initial state; when the loop
exits by natural exhaustion append the Done event, when stopped do not. -/
def scannerRun (cfg : ScannerConfig) (net : Network) (stop : Nat → Bool)
    (fuel : Nat) : List ResultEvent × RunExit :=
  match runLoop cfg net stop fuel 0 (initState cfg) with
  | (s, ex) =>
    if ex = RunExit.drained then (s.events ++ [doneEvent], ex)
    else (s.events, ex)

/-! ## Reachability through the site graph

For whole-crawl depth claims we need the links a page offers, independent
of any policy: the outcome of a full fetch of that page. -/

/-- The outbound links a page offers: what a full (follow) fetch of `link`
yields — nothing on a HEAD failure, an error status, a non-HTML content
type or a GET failure. -/
def outlinks (cfg : ScannerConfig) (net : Network) (link : String) : List String :=
  match net.head link cfg.timeout cfg.redirect with
  | .error _ => []
  | .ok resp =>
    if 400 ≤ resp.status then []
    else if contentTypeOk resp.contentType = false then []
    else
      match net.get resp.url cfg.timeout cfg.redirect with
      | .error _ => []
      | .ok ls => ls

/-- The visited-set key a raw discovered link is claimed under. -/
def normKey (raw : String) : String :=
  (urldefrag raw).1

/-- The link string scan_links carries forward for a raw discovered link
(fragment stripped, nonempty query re-appended). -/
def normLink (raw : String) : String :=
  let k := normKey raw
  let q := (urlparse k).query
  if q ≠ "" then k ++ "?" ++ q else k

/-- Whether following this raw link counts as an external hop. -/
def hopInc (cfg : ScannerConfig) (raw : String) : Nat :=
  if (urlparse (normKey raw)).netloc = scannerDomain cfg then 0 else 1

/-- Chains through the site graph, starting at the seed: `Reach k l h`
says the crawl-normalized link with visited key `k` and task link `l` is
reachable by some chain of page links with `h` external-domain hops. -/
inductive Reach (cfg : ScannerConfig) (net : Network) : String → String → Nat → Prop
  | seed : Reach cfg net cfg.url cfg.url 0
  | step {k l h : _} {raw : String} :
      Reach cfg net k l h → raw ∈ outlinks cfg net l →
      Reach cfg net (normKey raw) (normLink raw) (h + hopInc cfg raw)

/-! ## Structural lemmas about the URL model -/

theorem splitOnFirst_some (sep : Char) :
    ∀ l a b, splitOnFirst sep l = some (a, b) → l = a ++ sep :: b ∧ sep ∉ a := by
  intro l
  induction l with
  | nil => intro a b h; simp [splitOnFirst] at h
  | cons c cs ih =>
    intro a b h
    by_cases hc : c = sep
    · simp [splitOnFirst, hc] at h
      rcases h with ⟨ha, hb⟩
      subst ha; subst hb; subst hc
      simp
    · simp only [splitOnFirst, if_neg hc] at h
      cases hrec : splitOnFirst sep cs with
      | none => rw [hrec] at h; simp at h
      | some p =>
        rcases p with ⟨a1, b1⟩
        rw [hrec] at h
        simp at h
        rcases h with ⟨ha, hb⟩
        rcases ih a1 b1 hrec with ⟨hl, hmem⟩
        subst hb
        rw [← ha]
        constructor
        · rw [hl]; simp
        · intro hmem2
          rcases List.mem_cons.mp hmem2 with h | h
          · exact hc h.symm
          · exact hmem h

theorem splitOnFirst_none (sep : Char) :
    ∀ l, splitOnFirst sep l = none → sep ∉ l := by
  intro l
  induction l with
  | nil => intro _ h; simp at h
  | cons c cs ih =>
    intro h
    by_cases hc : c = sep
    · simp [splitOnFirst, hc] at h
    · simp only [splitOnFirst, if_neg hc] at h
      cases hrec : splitOnFirst sep cs with
      | none =>
        intro hmem
        rcases List.mem_cons.mp hmem with h1 | h1
        · exact hc h1.symm
        · exact ih hrec h1
      | some p => rw [hrec] at h; simp at h

/-- The defragmented link contains no `#`. -/
theorem urldefrag_no_hash (s : String) : '#' ∉ ((urldefrag s).1).data := by
  unfold urldefrag
  cases h : splitOnFirst '#' s.data with
  | none => exact splitOnFirst_none '#' s.data h
  | some p =>
    rcases p with ⟨a, b⟩
    simpa using (splitOnFirst_some '#' s.data a b h).2

theorem asString_data (l : List Char) : (l.asString).data = l := rfl

theorem takeNetloc_recon :
    ∀ l a b, takeNetloc l = (a, b) → l = a ++ b ∧ '?' ∉ a ∧ '#' ∉ a := by
  intro l
  induction l with
  | nil =>
    intro a b h
    simp only [takeNetloc, Prod.mk.injEq] at h
    rw [← h.1, ← h.2]
    simp
  | cons c cs ih =>
    intro a b h
    by_cases hc : c = '/' ∨ c = '?' ∨ c = '#'
    · simp only [takeNetloc, if_pos hc, Prod.mk.injEq] at h
      rw [← h.1, ← h.2]
      simp
    · simp only [takeNetloc, if_neg hc, Prod.mk.injEq] at h
      cases hrec : takeNetloc cs with
      | mk a1 b1 =>
        rw [hrec] at h
        simp only at h
        rcases ih a1 b1 hrec with ⟨hl, hq, hh⟩
        rw [← h.1, ← h.2, hl]
        refine ⟨by simp, ?_, ?_⟩
        · intro hmem
          rcases List.mem_cons.mp hmem with h1 | h1
          · exact hc (Or.inr (Or.inl h1.symm))
          · exact hq h1
        · intro hmem
          rcases List.mem_cons.mp hmem with h1 | h1
          · exact hc (Or.inr (Or.inr h1.symm))
          · exact hh h1

theorem schemeChar_ne (c : Char) (h : schemeChar c = true) : c ≠ '?' ∧ c ≠ '#' := by
  constructor
  · rintro rfl; simp [schemeChar] at h
  · rintro rfl; simp [schemeChar] at h

theorem splitScheme_recon (u : List Char) :
    ∃ pre, u = pre ++ (splitScheme u).2 ∧ '?' ∉ pre ∧ '#' ∉ pre := by
  cases h : splitOnFirst ':' u with
  | none =>
    have hs : (splitScheme u).2 = u := by simp [splitScheme, h]
    exact ⟨[], by simp [hs]⟩
  | some p =>
    rcases p with ⟨pre0, post⟩
    by_cases hcond : pre0 ≠ [] ∧ pre0.all schemeChar = true
    · have hs : (splitScheme u).2 = post := by simp [splitScheme, h, hcond]
      refine ⟨pre0 ++ [':'], ?_, ?_, ?_⟩
      · rcases splitOnFirst_some ':' u pre0 post h with ⟨hl, _⟩
        rw [hs, hl]; simp
      · intro hmem
        rcases List.mem_append.mp hmem with h1 | h1
        · exact (schemeChar_ne _ (List.all_eq_true.mp hcond.2 _ h1)).1 rfl
        · simp at h1
      · intro hmem
        rcases List.mem_append.mp hmem with h1 | h1
        · exact (schemeChar_ne _ (List.all_eq_true.mp hcond.2 _ h1)).2 rfl
        · simp at h1
    · have hs : (splitScheme u).2 = u := by
        simp only [splitScheme, h]
        rw [if_neg hcond]
      exact ⟨[], by simp [hs]⟩

theorem splitNetloc_recon (u : List Char) :
    ∃ pre, u = pre ++ (splitNetloc u).2 ∧ '?' ∉ pre ∧ '#' ∉ pre := by
  match u with
  | [] => exact ⟨[], by simp [splitNetloc]⟩
  | [c] => exact ⟨[], by simp [splitNetloc]⟩
  | c1 :: c2 :: rest =>
    by_cases h12 : c1 = '/' ∧ c2 = '/'
    · cases hrec : takeNetloc rest with
      | mk n r =>
        have hs : (splitNetloc (c1 :: c2 :: rest)).2 = r := by
          simp [splitNetloc, h12, hrec]
        rcases takeNetloc_recon rest n r hrec with ⟨hl, hq, hh⟩
        refine ⟨c1 :: c2 :: n, ?_, ?_, ?_⟩
        · rw [hs, hl]; simp
        · intro hmem
          rcases List.mem_cons.mp hmem with h1 | h1
          · rw [h12.1] at h1; exact absurd h1.symm (by decide)
          · rcases List.mem_cons.mp h1 with h2 | h2
            · rw [h12.2] at h2; exact absurd h2.symm (by decide)
            · exact hq h2
        · intro hmem
          rcases List.mem_cons.mp hmem with h1 | h1
          · rw [h12.1] at h1; exact absurd h1.symm (by decide)
          · rcases List.mem_cons.mp h1 with h2 | h2
            · rw [h12.2] at h2; exact absurd h2.symm (by decide)
            · exact hh h2
    · have hs : (splitNetloc (c1 :: c2 :: rest)).2 = c1 :: c2 :: rest := by
        simp only [splitNetloc]
        rw [if_neg h12]
      exact ⟨[], by simp [hs]⟩

/-- Query decomposition: when the parse of a fragment-free link has a
nonempty query, the link splits as `p ++ "?" ++ query` with `?` not
occurring in `p` — the query is literally the suffix after the first `?`. -/
theorem urlparse_query_decomp (d : String) (hd : '#' ∉ d.data)
    (hq : (urlparse d).query ≠ "") :
    ∃ p : String, d = p ++ "?" ++ (urlparse d).query ∧ '?' ∉ p.data := by
  rcases splitScheme_recon d.data with ⟨pre1, hu1, hq1, hh1⟩
  rcases splitNetloc_recon (splitScheme d.data).2 with ⟨pre2, hu2, hq2, hh2⟩
  set u2 := (splitNetloc (splitScheme d.data).2).2 with hu2def
  have hh3 : '#' ∉ u2 := by
    intro hc
    apply hd
    rw [hu1, hu2]
    simp [hc]
  have hfrag : splitFragment u2 = (u2, none) := by
    unfold splitFragment
    cases hsf : splitOnFirst '#' u2 with
    | none => rfl
    | some p =>
      rcases p with ⟨a, b⟩
      exfalso
      rcases splitOnFirst_some '#' u2 a b hsf with ⟨hl, _⟩
      exact hh3 (by rw [hl]; simp)
  have hquery : (urlparse d).query =
      ((splitQuery u2).2.getD []).asString := by
    show (urlsplitChars d.data).query = ((splitQuery u2).2.getD []).asString
    simp only [urlsplitChars, ← hu2def, hfrag]
  rw [hquery] at hq ⊢
  cases hsq : splitQuery u2 with
  | mk p qo =>
    cases qo with
    | none =>
      rw [hsq] at hq
      simp only [Option.getD_none] at hq
      exact absurd rfl hq
    | some qc =>
      simp only [Option.getD_some]
      have hq2' : u2 = p ++ '?' :: qc ∧ '?' ∉ p := by
        unfold splitQuery at hsq
        cases hso : splitOnFirst '?' u2 with
        | none => rw [hso] at hsq; simp at hsq
        | some pp =>
          rcases pp with ⟨a, b⟩
          rw [hso] at hsq
          simp only [Prod.mk.injEq, Option.some.injEq] at hsq
          rcases hsq with ⟨ha, hb⟩
          subst ha
          subst hb
          exact splitOnFirst_some '?' u2 _ _ hso
      refine ⟨(pre1 ++ pre2 ++ p).asString, ?_, ?_⟩
      · apply String.ext
        show d.data = ((pre1 ++ pre2 ++ p).asString ++ "?" ++ qc.asString).data
        rw [String.data_append, String.data_append, asString_data, asString_data]
        rw [hu1, hu2, hq2'.1]
        simp
      · rw [asString_data]
        intro hc
        rcases List.mem_append.mp hc with h1 | h1
        · rcases List.mem_append.mp h1 with h2 | h2
          · exact hq1 h2
          · exact hq2 h2
        · exact hq2'.2 h1

/-! ## Claim C1: the rule filter -/

/-- Claim C1: for every link, origin scope and ordered rule list,
check_rules considers exactly the rules whose scope is ANY or equal to the
link's origin scope, returns true (reject) exactly when some considered
rule is an INCLUDE whose pattern does not match the link or an EXCLUDE
whose pattern does match it (evaluation stops at the first such rule), and
returns false (accept) when no considered rule rejects. -/
theorem check_rules_rejects_iff (rules : List Rule) (link : String) (server : Nat) :
    check_rules rules link server = true ↔
      ∃ r ∈ rules, (r.scope = ANY ∨ server = r.scope) ∧
        ((r.condition = INCLUDE ∧ r.search link = false) ∨
         (r.condition = EXCLUDE ∧ r.search link = true)) := by
  induction rules with
  | nil => simp [check_rules]
  | cons r rest ih =>
    simp only [check_rules]
    split_ifs with h1 h2 h3
    · rw [ih]
      simp only [List.exists_mem_cons_iff]
      constructor
      · exact fun h => Or.inr h
      · rintro (⟨hc, _⟩ | h)
        · rcases hc with hc | hc
          · exact absurd hc h1.1
          · exact absurd hc h1.2
        · exact h
    · simp only [eq_self_iff_true, true_iff]
      refine ⟨r, List.mem_cons_self r rest, ?_, Or.inl h2⟩
      by_contra hc
      push_neg at hc
      exact h1 ⟨hc.1, hc.2⟩
    · simp only [eq_self_iff_true, true_iff]
      refine ⟨r, List.mem_cons_self r rest, ?_, Or.inr h3⟩
      by_contra hc
      push_neg at hc
      exact h1 ⟨hc.1, hc.2⟩
    · rw [ih]
      simp only [List.exists_mem_cons_iff]
      constructor
      · exact fun h => Or.inr h
      · rintro (⟨_, hd⟩ | h)
        · rcases hd with hd | hd
          · exact absurd hd h2
          · exact absurd hd h3
        · exact h

/-- Witness for C1: a concrete EXCLUDE rule whose pattern matches rejects
the link. -/
theorem check_rules_rejects_iff_witness :
    check_rules [{ condition := EXCLUDE, scope := ANY,
                   search := fun s => decide (s = "http://a.com/file.pdf") }]
      ("http://a.com/file.pdf") INTERNAL = true :=
  (check_rules_rejects_iff _ _ _).mpr
    ⟨_, List.mem_cons_self _ _, Or.inl rfl, Or.inr ⟨rfl, by decide⟩⟩

/-! ## Claims C6 and C7: the fetch task -/

/-- Claim C6: Task.run is total (the embedding catches oracle failures in
the task's error field): a HEAD failure is recorded verbatim, and whenever
the executed task carries an error (HEAD or GET failure), it carries no
outbound links. -/
theorem task_run_failure_no_links (net : Network) (t : Task)
    (hl : t.links = []) (he : t.error = none) :
    (∀ e, net.head t.link t.timeout t.redirect = Except.error e →
        Task.run net t = { t with error := some e }) ∧
    ((Task.run net t).error.isSome = true → (Task.run net t).links = []) := by
  constructor
  · intro e hh
    simp [Task.run, hh]
  · intro herr
    cases hh : net.head t.link t.timeout t.redirect with
    | error e => simp [Task.run, hh, hl]
    | ok resp =>
      simp only [Task.run, hh] at herr ⊢
      split_ifs at herr ⊢ with h1 h2 h3
      · simp_all
      · simp_all
      · simp_all
      · cases hg : net.get resp.url t.timeout t.redirect with
        | error e => simp [hg, hl]
        | ok ls => simp [hg, he] at herr

/-- A fresh follow-all task for the witnesses below. -/
def taskW : Task :=
  { link := "http://a.com/", source := "", depth := 0, timeout := 10,
    redirect := true, server := INTERNAL, follow := true, links := [],
    status := 0, error := none, redirected := false, key := "http://a.com/" }

/-- A network whose HEAD always raises. -/
def netFail : Network :=
  { head := fun _ _ _ => Except.error ("timeout"),
    get := fun _ _ _ => Except.ok [] }

/-- Witness for C6: a network whose HEAD raises produces a task with the
error recorded and no links. -/
theorem task_run_failure_no_links_witness :
    Task.run netFail taskW = { taskW with error := some ("timeout") } :=
  (task_run_failure_no_links netFail taskW rfl rfl).1 ("timeout") rfl

/-- Claim C7: after a successful HEAD, the task stops — its result is the
original task with only the final URL and status recorded, it keeps an
empty link list, and it is independent of the GET oracle — whenever the
follow flag is false, or the recorded status is at least 400, or the
response's content type is not HTML/XHTML. -/
theorem task_run_stops_without_get (net1 net2 : Network) (t : Task)
    (resp : HeadResponse)
    (h1 : net1.head t.link t.timeout t.redirect = Except.ok resp)
    (h2 : net2.head t.link t.timeout t.redirect = Except.ok resp)
    (hstop : t.follow = false ∨ 400 ≤ resp.status ∨
      contentTypeOk resp.contentType = false) :
    Task.run net1 t = { t with link := resp.url, status := resp.status } ∧
    (t.links = [] → (Task.run net1 t).links = []) ∧
    Task.run net1 t = Task.run net2 t := by
  have key : ∀ net : Network,
      net.head t.link t.timeout t.redirect = Except.ok resp →
      Task.run net t = { t with link := resp.url, status := resp.status } := by
    intro net hh
    simp only [Task.run, hh]
    rcases hstop with h | h | h
    · simp [h]
    · by_cases hf : t.follow = false
      · simp [hf]
      · simp [hf, h]
    · by_cases hf : t.follow = false
      · simp [hf]
      · by_cases hs : (400 : Nat) ≤ resp.status
        · simp [hf, hs]
        · simp [hf, hs, h]
  refine ⟨key net1 h1, ?_, ?_⟩
  · intro hl
    rw [key net1 h1, hl]
  · rw [key net1 h1, key net2 h2]

/-- A network that answers every HEAD with a 200 HTML response. -/
def netOkW : Network :=
  { head := fun _ _ _ => Except.ok
      { url := "http://a.com/", status := 200, contentType := "text/html" },
    get := fun _ _ _ => Except.ok ["http://a.com/x"] }

/-- The same HEAD behaviour over a GET oracle that raises. -/
def netOkBadGet : Network :=
  { head := netOkW.head, get := fun _ _ _ => Except.error ("boom") }

/-- Witness for C7: a follow-false task stops after HEAD with empty links,
whatever the GET oracle would have answered. -/
theorem task_run_stops_without_get_witness :
    Task.run netOkW { taskW with follow := false } =
      Task.run netOkBadGet { taskW with follow := false } ∧
    (Task.run netOkW { taskW with follow := false }).links = [] :=
  ⟨(task_run_stops_without_get netOkW netOkBadGet { taskW with follow := false }
      { url := "http://a.com/", status := 200, contentType := "text/html" }
      rfl rfl (Or.inl rfl)).2.2,
   (task_run_stops_without_get netOkW netOkBadGet { taskW with follow := false }
      { url := "http://a.com/", status := 200, contentType := "text/html" }
      rfl rfl (Or.inl rfl)).2.1 rfl⟩

/-! ## Shape lemmas for link classification -/

/-- A raw link whose normalized form is already visited is dropped
silently: no visited change, no event, no task. -/
theorem classifyLink_visited (cfg : ScannerConfig) (t : Task)
    (visited : List String) (raw : String) (h : normKey raw ∈ visited) :
    classifyLink cfg t visited raw = (visited, none, none) := by
  have h2 : (urldefrag raw).1 ∈ visited := h
  simp only [classifyLink]
  rw [if_pos h2]

/-- Equation for the fresh case: the visited entry is claimed and the
event/task outcome is the policy decision on the normalized link. -/
theorem classifyLink_fresh_eq (cfg : ScannerConfig) (t : Task)
    (visited : List String) (raw : String) (h : normKey raw ∉ visited) :
    classifyLink cfg t visited raw =
      (normKey raw :: visited,
        if (urlparse (normKey raw)).query ≠ "" ∧ cfg.query = false then
          (some (skipEvent (normLink raw) t (normKey raw)), none)
        else if ACCEPT_SCHEMES.contains (urlparse (normKey raw)).scheme = false then
          if IGNORE_SCHEMES.contains (urlparse (normKey raw)).scheme = false then
            (some (skipEvent (normLink raw) t (normKey raw)), none)
          else (none, none)
        else
          match routeLink cfg t (urlparse (normKey raw)) with
          | none => (some (skipEvent (normLink raw) t (normKey raw)), none)
          | some dsf =>
            if check_rules cfg.rules (normLink raw) dsf.2.1 then
              (some (skipEvent (normLink raw) t (normKey raw)), none)
            else
              (none, some (newTask cfg (normKey raw) (normLink raw) t.link
                dsf.1 dsf.2.1 dsf.2.2))) := by
  have h2 : (urldefrag raw).1 ∉ visited := h
  simp only [classifyLink, normKey, normLink]
  rw [if_neg h2]
  split_ifs <;> try rfl
  all_goals
    cases routeLink cfg t (urlparse (urldefrag raw).1) with
    | none => rfl
    | some dsf =>
      simp only []
      split_ifs <;> rfl

/-- Exhaustive shape of one classification step: either the normalized
link was already visited (silent drop), or it is claimed at the head of
the visited set and the step produces nothing (ignored scheme), a Skipped
event for the carried link, or a single new task — never both. -/
theorem classifyLink_cases (cfg : ScannerConfig) (t : Task)
    (visited : List String) (raw : String) :
    (normKey raw ∈ visited ∧ classifyLink cfg t visited raw = (visited, none, none)) ∨
    (normKey raw ∉ visited ∧
      (classifyLink cfg t visited raw).1 = normKey raw :: visited ∧
      ((classifyLink cfg t visited raw).2 = (none, none) ∨
       (classifyLink cfg t visited raw).2 =
         (some (skipEvent (normLink raw) t (normKey raw)), none) ∨
       ∃ d server follow, (classifyLink cfg t visited raw).2 =
         (none, some (newTask cfg (normKey raw) (normLink raw) t.link d server follow)))) := by
  by_cases h : normKey raw ∈ visited
  · exact Or.inl ⟨h, classifyLink_visited cfg t visited raw h⟩
  · refine Or.inr ⟨h, ?_⟩
    rw [classifyLink_fresh_eq cfg t visited raw h]
    refine ⟨rfl, ?_⟩
    split_ifs with h1 h2 h3
    · exact Or.inr (Or.inl rfl)
    · exact Or.inr (Or.inl rfl)
    · exact Or.inl rfl
    · cases routeLink cfg t (urlparse (normKey raw)) with
      | none => exact Or.inr (Or.inl rfl)
      | some dsf =>
        by_cases hcr : check_rules cfg.rules (normLink raw) dsf.2.1 = true
        · exact Or.inr (Or.inl (by simp [hcr]))
        · exact Or.inr (Or.inr ⟨dsf.1, dsf.2.1, dsf.2.2, by simp [hcr]⟩)

/-! ## Claim C5: the query string is appended twice -/

/-- Claim C5: for a not-yet-visited discovered link whose fragment-stripped
form carries a nonempty query string, classification re-appends the query:
the carried link (in the Skipped event or new task) is the fragment-stripped
link plus `?` plus its own query — so the query occurs twice, since the
fragment-stripped link already ends in `?` plus that query — while the
visited set stores the single-query (fragment-stripped) form. -/
theorem query_string_appended_twice (cfg : ScannerConfig) (t : Task)
    (visited : List String) (raw : String)
    (h0 : normKey raw ∉ visited)
    (hq : (urlparse (normKey raw)).query ≠ "") :
    ∃ p : String,
      normKey raw = p ++ "?" ++ (urlparse (normKey raw)).query ∧
      normLink raw = normKey raw ++ "?" ++ (urlparse (normKey raw)).query ∧
      (classifyLink cfg t visited raw).1 = normKey raw :: visited ∧
      (∀ e, (classifyLink cfg t visited raw).2.1 = some e → e.link = normLink raw) ∧
      (∀ tk, (classifyLink cfg t visited raw).2.2 = some tk → tk.link = normLink raw) := by
  rcases urlparse_query_decomp (normKey raw) (urldefrag_no_hash raw) hq with ⟨p, hdec, _⟩
  have hlink : normLink raw = normKey raw ++ "?" ++ (urlparse (normKey raw)).query := by
    unfold normLink
    rw [if_pos hq]
  rcases classifyLink_cases cfg t visited raw with ⟨hmem, _⟩ | ⟨_, hvis, hshape⟩
  · exact absurd hmem h0
  · refine ⟨p, hdec, hlink, hvis, ?_, ?_⟩
    · intro e he
      rcases hshape with hs | hs | ⟨d, server, follow, hs⟩
      · rw [Prod.ext_iff] at hs
        rw [hs.1] at he
        exact absurd he (by simp)
      · rw [Prod.ext_iff] at hs
        rw [hs.1] at he
        rw [Option.some.injEq] at he
        rw [← he]
        rfl
      · rw [Prod.ext_iff] at hs
        rw [hs.1] at he
        exact absurd he (by simp)
    · intro tk htk
      rcases hshape with hs | hs | ⟨d, server, follow, hs⟩
      · rw [Prod.ext_iff] at hs
        rw [hs.2] at htk
        exact absurd htk (by simp)
      · rw [Prod.ext_iff] at hs
        rw [hs.2] at htk
        exact absurd htk (by simp)
      · rw [Prod.ext_iff] at hs
        rw [hs.2] at htk
        rw [Option.some.injEq] at htk
        rw [← htk]
        rfl

/-- Shared concrete configuration for witnesses: seed `http://a.com/`,
depth 1, internal Follow, external Check, query following on, no rules. -/
def cfgA : ScannerConfig :=
  { url := "http://a.com/", depth := 1, threads := 1, delay := 0,
    timeout := 10, redirect := true, query := true, external := CHECK,
    internal := FOLLOW, rules := [] }

/-- Witness for C5: the discovered link `http://a.com/p?x=1` (with query
following disabled so the step is observable as a Skipped event) is
carried with its query doubled while the visited set stores it once. -/
theorem query_string_appended_twice_witness :
    ((classifyLink { cfgA with query := false } (seedTask cfgA) []
        ("http://a.com/p?x=1")).2.1).map (fun e => e.link) =
      some (normLink ("http://a.com/p?x=1")) ∧
    (classifyLink { cfgA with query := false } (seedTask cfgA) []
        ("http://a.com/p?x=1")).1 = normKey ("http://a.com/p?x=1") :: [] := by
  rcases query_string_appended_twice { cfgA with query := false }
      (seedTask cfgA) [] ("http://a.com/p?x=1") (by decide) (by decide) with
    ⟨p, h1, h2, h3, h4, h5⟩
  refine ⟨?_, h3⟩
  cases hoc : (classifyLink { cfgA with query := false } (seedTask cfgA) []
      ("http://a.com/p?x=1")).2.1 with
  | none => exact absurd hoc (by decide)
  | some e => simp [h4 e hoc]

/-! ## Claim C9: non-http/https schemes -/

/-- Claim C9 (amended): a discovered link whose scheme is not http/https
never yields a task; provided it is not already visited and it does not
hit the earlier query-string check (no query, or query following enabled),
it is dropped silently when the scheme is in the ignored set and otherwise
produces exactly a Skipped event. -/
theorem nonhttp_scheme_classification (cfg : ScannerConfig) (t : Task)
    (visited : List String) (raw : String)
    (hs : ACCEPT_SCHEMES.contains (urlparse (normKey raw)).scheme = false) :
    ((classifyLink cfg t visited raw).2.2 = none) ∧
    (normKey raw ∉ visited →
      ((urlparse (normKey raw)).query = "" ∨ cfg.query = true) →
      ((IGNORE_SCHEMES.contains (urlparse (normKey raw)).scheme = true →
          classifyLink cfg t visited raw = (normKey raw :: visited, none, none)) ∧
       (IGNORE_SCHEMES.contains (urlparse (normKey raw)).scheme = false →
          classifyLink cfg t visited raw =
            (normKey raw :: visited,
              some (skipEvent (normLink raw) t (normKey raw)), none)))) := by
  constructor
  · by_cases h : normKey raw ∈ visited
    · rw [classifyLink_visited cfg t visited raw h]
    · rw [classifyLink_fresh_eq cfg t visited raw h]
      by_cases h1 : (urlparse (normKey raw)).query ≠ "" ∧ cfg.query = false
      · rw [if_pos h1]
      · rw [if_neg h1, if_pos hs]
        by_cases h2 : IGNORE_SCHEMES.contains (urlparse (normKey raw)).scheme = false
        · rw [if_pos h2]
        · rw [if_neg h2]
  · intro h hq
    have h1 : ¬((urlparse (normKey raw)).query ≠ "" ∧ cfg.query = false) := by
      rcases hq with hq | hq
      · intro hc
        exact hc.1 hq
      · intro hc
        rw [hq] at hc
        exact absurd hc.2 (by simp)
    constructor
    · intro hig
      rw [classifyLink_fresh_eq cfg t visited raw h, if_neg h1, if_pos hs,
        if_neg (by rw [hig]; simp)]
    · intro hig
      rw [classifyLink_fresh_eq cfg t visited raw h, if_neg h1, if_pos hs,
        if_pos hig]

/-- Witness for C9 (amended): a fresh `javascript:` link without a query
is dropped silently with no task and no event. -/
theorem nonhttp_scheme_classification_witness :
    ((classifyLink cfgA (seedTask cfgA) [] ("javascript:void(0)")).2.2 = none) ∧
    classifyLink cfgA (seedTask cfgA) [] ("javascript:void(0)") =
      (normKey ("javascript:void(0)") :: [], none, none) := by
  have h := nonhttp_scheme_classification cfgA (seedTask cfgA) []
    ("javascript:void(0)") (by decide)
  exact ⟨h.1, (h.2 (by decide) (Or.inl (by decide))).1 (by decide)⟩

/-- Counterexample for C9 as stated: the ignored-scheme link
`mailto:bob@x?s=1`, crawled with query following disabled, is not dropped
silently — the earlier query check emits a Skipped event for it. -/
theorem nonhttp_scheme_counterexample :
    IGNORE_SCHEMES.contains (urlparse (normKey ("mailto:bob@x?s=1"))).scheme = true ∧
    ((classifyLink { cfgA with query := false } (seedTask cfgA) []
        ("mailto:bob@x?s=1")).2.1).map (fun e => e.status) = some SKIPPED := by
  decide

/-! ## Claim C10: skip events carry the originating task's fields -/

/-- Every event produced by the scan_links loop is a skipEvent for the
originating task. -/
theorem scanLinksAux_events_shape (cfg : ScannerConfig) (t : Task) :
    ∀ raws visited e, e ∈ (scanLinksAux cfg t raws visited).2.1 →
      ∃ l k, e = skipEvent l t k := by
  intro raws
  induction raws with
  | nil =>
    intro visited e he
    simp [scanLinksAux] at he
  | cons raw raws ih =>
    intro visited e he
    rcases h1 : classifyLink cfg t visited raw with ⟨v1, ev, tk⟩
    rcases h2 : scanLinksAux cfg t raws v1 with ⟨v2, evs, ts⟩
    rw [scanLinksAux, h1] at he
    simp only [] at he
    rw [h2] at he
    simp only [List.mem_append] at he
    rcases he with he | he
    · rcases classifyLink_cases cfg t visited raw with ⟨_, hc⟩ | ⟨_, _, hc | hc | ⟨d, sv, fl, hc⟩⟩
      · rw [h1] at hc
        injection hc with _ hc2
        injection hc2 with hev _
        rw [hev] at he
        simp at he
      · rw [h1] at hc
        injection hc with hev _
        rw [hev] at he
        simp at he
      · rw [h1] at hc
        injection hc with hev _
        rw [hev] at he
        simp at he
        exact ⟨normLink raw, normKey raw, he⟩
      · rw [h1] at hc
        injection hc with hev _
        rw [hev] at he
        simp at he
    · exact ih v1 e (by rw [h2]; exact he)

/-- Claim C10: every Skipped event emitted during link classification
carries the originating task's origin classification and error fields (and
its link as the event's source), not anything computed for the skipped
candidate. -/
theorem skip_events_carry_task_fields (cfg : ScannerConfig)
    (visited : List String) (t : Task) :
    ∀ e ∈ (scanLinks cfg visited t).2.1,
      e.status = SKIPPED ∧ e.source = t.link ∧ e.server = t.server ∧
        e.error = t.error := by
  intro e he
  rcases scanLinksAux_events_shape cfg t t.links visited e he with ⟨l, k, rfl⟩
  exact ⟨rfl, rfl, rfl, rfl⟩

/-- Witness for C10: with external policy Ignore, an external candidate
found on the internal seed page is reported Skipped with the seed task's
Internal origin. -/
theorem skip_events_carry_task_fields_witness :
    (skipEvent ("http://b.com/x")
        { seedTask cfgA with links := ["http://b.com/x"] }
        ("http://b.com/x")).status = SKIPPED ∧
    (skipEvent ("http://b.com/x")
        { seedTask cfgA with links := ["http://b.com/x"] }
        ("http://b.com/x")).source =
      ({ seedTask cfgA with links := ["http://b.com/x"] } : Task).link ∧
    (skipEvent ("http://b.com/x")
        { seedTask cfgA with links := ["http://b.com/x"] }
        ("http://b.com/x")).server =
      ({ seedTask cfgA with links := ["http://b.com/x"] } : Task).server ∧
    (skipEvent ("http://b.com/x")
        { seedTask cfgA with links := ["http://b.com/x"] }
        ("http://b.com/x")).error =
      ({ seedTask cfgA with links := ["http://b.com/x"] } : Task).error :=
  skip_events_carry_task_fields { cfgA with external := IGNORE } []
    { seedTask cfgA with links := ["http://b.com/x"] }
    (skipEvent ("http://b.com/x")
      { seedTask cfgA with links := ["http://b.com/x"] } ("http://b.com/x"))
    (by decide)

/-! ## Preservation lemmas for the executed task -/

/-- Task.run only touches link, status, links, error and redirected. -/
theorem task_run_preserves (net : Network) (t : Task) :
    (Task.run net t).key = t.key ∧ (Task.run net t).depth = t.depth ∧
    (Task.run net t).server = t.server ∧ (Task.run net t).source = t.source ∧
    (Task.run net t).timeout = t.timeout ∧
    (Task.run net t).redirect = t.redirect ∧
    (Task.run net t).follow = t.follow := by
  unfold Task.run
  cases net.head t.link t.timeout t.redirect with
  | error e => exact ⟨rfl, rfl, rfl, rfl, rfl, rfl, rfl⟩
  | ok resp =>
    simp only []
    split_ifs <;>
      first
        | exact ⟨rfl, rfl, rfl, rfl, rfl, rfl, rfl⟩
        | (cases net.get resp.url t.timeout t.redirect <;>
            exact ⟨rfl, rfl, rfl, rfl, rfl, rfl, rfl⟩)

/-- reclassify only touches the server field. -/
theorem reclassify_preserves (cfg : ScannerConfig) (t : Task) :
    (reclassify cfg t).key = t.key ∧ (reclassify cfg t).depth = t.depth ∧
    (reclassify cfg t).link = t.link ∧ (reclassify cfg t).links = t.links ∧
    (reclassify cfg t).error = t.error ∧
    (reclassify cfg t).status = t.status ∧
    (reclassify cfg t).source = t.source := by
  unfold reclassify
  split_ifs <;> exact ⟨rfl, rfl, rfl, rfl, rfl, rfl, rfl⟩

/-! ## Claim C2: redirect reclassification -/

/-- Claim C2 (amended): an internal-origin task that its fetch marked
redirected, whose final URL's domain differs from the crawl domain, is
reported with origin External, and its links are not expanded when the
external policy is not Follow; the fetch marks a task redirected only when
its follow flag was true and the fetch ran to completion without an
error. -/
theorem redirect_reclassification (cfg : ScannerConfig) (rest : List Task)
    (visited : List String) (events : List ResultEvent) (t : Task)
    (net : Network) (t0 : Task)
    (hsv : t.server = INTERNAL) (hrd : t.redirected = true)
    (hdom : (urlparse t.link).netloc ≠ scannerDomain cfg)
    (herr : t.error = none)
    (h0 : t0.redirected = false)
    (h1 : (Task.run net t0).redirected = true) :
    (resultEvent (reclassify cfg t)).server = EXTERNAL ∧
    (cfg.external ≠ FOLLOW →
      handleTask cfg rest visited events t =
        { queue := rest, visited := visited,
          events := events ++ [resultEvent (reclassify cfg t)] }) ∧
    (t0.follow = true ∧ (Task.run net t0).error = t0.error) := by
  have hre : reclassify cfg t = { t with server := EXTERNAL } := by
    unfold reclassify
    rw [if_pos ⟨hsv, hrd⟩, if_pos hdom]
  refine ⟨by rw [hre]; rfl, ?_, ?_⟩
  · intro hext
    simp only [handleTask]
    rw [hre]
    simp only [herr]
    split_ifs with hg1 hg2
    · simp at hg1
    · rfl
    · exact absurd ⟨by trivial, hext⟩ hg2
  · unfold Task.run at h1 ⊢
    cases hh : net.head t0.link t0.timeout t0.redirect with
    | error e =>
      rw [hh] at h1
      simp only [] at h1
      rw [h0] at h1
      cases h1
    | ok resp =>
      rw [hh] at h1
      simp only [] at h1 ⊢
      by_cases hf : t0.follow = false
      · rw [if_pos hf] at h1
        simp only [] at h1
        rw [h0] at h1
        cases h1
      · have hft : t0.follow = true := by
          cases hfl : t0.follow
          · exact absurd hfl hf
          · rfl
        refine ⟨hft, ?_⟩
        rw [if_neg hf] at h1 ⊢
        by_cases hs : 400 ≤ resp.status
        · rw [if_pos hs] at h1
          simp only [] at h1
          rw [h0] at h1
          cases h1
        · rw [if_neg hs] at h1 ⊢
          by_cases hct : contentTypeOk resp.contentType = false
          · rw [if_pos hct] at h1
            simp only [] at h1
            rw [h0] at h1
            cases h1
          · rw [if_neg hct] at h1 ⊢
            cases hg : net.get resp.url t0.timeout t0.redirect with
            | error e =>
              rw [hg] at h1
              simp only [] at h1
              rw [h0] at h1
              cases h1
            | ok ls => rfl

/-- A network whose HEAD resolves everything to `http://b.com/x` (an
off-domain redirect) with a 200 HTML answer and an empty page. -/
def netB : Network :=
  { head := fun _ _ _ => Except.ok
      { url := "http://b.com/x", status := 200, contentType := "text/html" },
    get := fun _ _ _ => Except.ok [] }

/-- Witness for C2 (amended): a redirected internal task resolved on
domain b.com under a crawl of a.com, with external policy Check. -/
theorem redirect_reclassification_witness :
    (resultEvent (reclassify cfgA
        { taskW with link := "http://b.com/x", redirected := true })).server =
      EXTERNAL ∧
    handleTask cfgA [] [] []
        { taskW with link := "http://b.com/x", redirected := true } =
      { queue := [], visited := [],
        events := [resultEvent (reclassify cfgA
          { taskW with link := "http://b.com/x", redirected := true })] } ∧
    (Task.run netB taskW).error = taskW.error := by
  have h := redirect_reclassification cfgA [] [] []
    { taskW with link := "http://b.com/x", redirected := true } netB taskW
    rfl rfl (by decide) rfl rfl (by decide)
  exact ⟨h.1, h.2.1 (by decide), h.2.2.2⟩

/-- Counterexample for C2 as stated: an internal-origin reachability-only
task (follow = false) whose HEAD resolves off-domain is reported with
origin Internal — the redirected flag is never set for it, so the
reclassification does not fire. -/
theorem redirect_reclassification_counterexample :
    ({ taskW with link := "http://a.com/x", follow := false } : Task).server =
      INTERNAL ∧
    (urlparse (Task.run netB
        { taskW with link := "http://a.com/x", follow := false }).link).netloc ≠
      scannerDomain cfgA ∧
    (handleTask cfgA [] [] []
        (Task.run netB
          { taskW with link := "http://a.com/x", follow := false })).events.map
        (fun e => e.server) = [INTERNAL] := by
  decide

/-! ## Generic drain-loop reasoning -/

/-- Shape of the events appended by one processed task: exactly one error
event, or exactly one result event possibly followed by the scan's Skipped
events. -/
theorem handleTask_events (cfg : ScannerConfig) (rest : List Task)
    (visited : List String) (events : List ResultEvent) (t0 : Task) :
    (handleTask cfg rest visited events t0).events =
        events ++ [errorEvent (reclassify cfg t0)] ∨
    (handleTask cfg rest visited events t0).events =
        events ++ [resultEvent (reclassify cfg t0)] ∨
    (handleTask cfg rest visited events t0).events =
        events ++ [resultEvent (reclassify cfg t0)] ++
          (scanLinks cfg visited (reclassify cfg t0)).2.1 := by
  simp only [handleTask]
  split_ifs with h1 h2
  · exact Or.inl rfl
  · exact Or.inr (Or.inl rfl)
  · rcases hscan : scanLinks cfg visited (reclassify cfg t0) with ⟨v1, evs, ts⟩
    exact Or.inr (Or.inr rfl)

/-- Any invariant preserved by one step holds at the end of the drain
loop. -/
theorem runLoop_inv (cfg : ScannerConfig) (net : Network) (stop : Nat → Bool)
    (P : CrawlState → Prop)
    (hstep : ∀ s, P s → P (crawlStep cfg net s)) :
    ∀ fuel i s, P s → P (runLoop cfg net stop fuel i s).1 := by
  intro fuel
  induction fuel with
  | zero => intro i s hs; exact hs
  | succ n ih =>
    intro i s hs
    cases hq : s.queue with
    | nil => simp only [runLoop, hq]; exact hs
    | cons t rest =>
      simp only [runLoop, hq]
      by_cases hstp : stop i = true
      · rw [if_pos hstp]; exact hs
      · rw [if_neg hstp]; exact ih (i + 1) (crawlStep cfg net s) (hstep s hs)

/-! ## Claim C8: exactly one Done event -/

/-- Number of Done-site events in a trace. -/
def doneCount (evs : List ResultEvent) : Nat :=
  List.countP (fun e => e.site == Site.done) evs

/-- One drain-loop step emits no Done event. -/
theorem crawlStep_doneCount (cfg : ScannerConfig) (net : Network)
    (s : CrawlState) :
    doneCount (crawlStep cfg net s).events = doneCount s.events := by
  unfold crawlStep
  cases hq : s.queue with
  | nil => rfl
  | cons t rest =>
    rcases handleTask_events cfg rest s.visited s.events (Task.run net t) with
      he | he | he <;> rw [he] <;> simp only [doneCount, List.countP_append]
    · simp [errorEvent]
    · simp [resultEvent]
    · have hz : List.countP (fun e => e.site == Site.done)
          (scanLinks cfg s.visited (reclassify cfg (Task.run net t))).2.1 = 0 := by
        rw [List.countP_eq_zero]
        intro e he2
        rcases scanLinksAux_events_shape cfg (reclassify cfg (Task.run net t)) _ _
          e he2 with ⟨l, k, rfl⟩
        simp [skipEvent]
      rw [hz]
      simp [resultEvent]

/-- Claim C8: the crawl emits exactly one Done event when the drain loop
exits by natural exhaustion of the pending work, and none when it exits
because the caller's stop was observed. -/
theorem done_event_exactly_once (cfg : ScannerConfig) (net : Network)
    (stop : Nat → Bool) (fuel : Nat) :
    ((scannerRun cfg net stop fuel).2 = RunExit.drained →
      doneCount (scannerRun cfg net stop fuel).1 = 1) ∧
    ((scannerRun cfg net stop fuel).2 = RunExit.halted →
      doneCount (scannerRun cfg net stop fuel).1 = 0) := by
  have hz : doneCount (runLoop cfg net stop fuel 0 (initState cfg)).1.events = 0 := by
    have := runLoop_inv cfg net stop
      (fun s => doneCount s.events = 0)
      (fun s hs => by
        show doneCount (crawlStep cfg net s).events = 0
        rw [crawlStep_doneCount]
        exact hs)
      fuel 0 (initState cfg) (by rfl)
    exact this
  rcases hr : runLoop cfg net stop fuel 0 (initState cfg) with ⟨s, ex⟩
  rw [hr] at hz
  constructor
  · intro hex
    simp only [scannerRun, hr] at hex ⊢
    by_cases hd : ex = RunExit.drained
    · rw [if_pos hd] at hex ⊢
      simp only [doneCount, List.countP_append] at hz ⊢
      rw [hz]
      simp [doneEvent]
    · rw [if_neg hd] at hex
      exact absurd hex hd
  · intro hex
    simp only [scannerRun, hr] at hex ⊢
    by_cases hd : ex = RunExit.drained
    · rw [if_pos hd] at hex
      simp only [] at hex
      rw [hex] at hd
      exact absurd hd (by decide)
    · rw [if_neg hd] at hex ⊢
      exact hz

/-- The caller never stops the crawl. -/
def stopNever : Nat → Bool := fun _ => false

/-- The caller's stop is already observed at the first check. -/
def stopNow : Nat → Bool := fun _ => true

/-- Witness for C8: a one-task crawl (the seed HEAD raises) drained to
completion has one Done event; the same crawl stopped before processing
has none. -/
theorem done_event_exactly_once_witness :
    doneCount (scannerRun cfgA netFail stopNever 3).1 = 1 ∧
    doneCount (scannerRun cfgA netFail stopNow 3).1 = 0 :=
  ⟨(done_event_exactly_once cfgA netFail stopNever 3).1 (by decide),
   (done_event_exactly_once cfgA netFail stopNow 3).2 (by decide)⟩

/-! ## Claim C4: visited-set monotonicity and event accounting -/

/-- The normalized link always ends up in the visited set. -/
theorem classifyLink_mem (cfg : ScannerConfig) (t : Task)
    (visited : List String) (raw : String) :
    normKey raw ∈ (classifyLink cfg t visited raw).1 := by
  rcases classifyLink_cases cfg t visited raw with ⟨hm, hc⟩ | ⟨_, hv, _⟩
  · rw [hc]; exact hm
  · rw [hv]; exact List.mem_cons_self _ _

/-- One classification step only grows the visited set. -/
theorem classifyLink_mono (cfg : ScannerConfig) (t : Task)
    (visited : List String) (raw : String) :
    visited ⊆ (classifyLink cfg t visited raw).1 := by
  rcases classifyLink_cases cfg t visited raw with ⟨_, hc⟩ | ⟨_, hv, _⟩
  · rw [hc]; exact fun x hx => hx
  · rw [hv]; exact fun x hx => List.mem_cons_of_mem _ hx

/-- Totality of one classification step on a fresh link whose scheme is
not in the ignored set: the step is never silent — it yields the Skipped
event for the carried link or a pending task, either way bearing the
fragment-stripped link as its key. -/
theorem classifyLink_total (cfg : ScannerConfig) (t : Task)
    (visited : List String) (raw : String)
    (h0 : normKey raw ∉ visited)
    (hig : IGNORE_SCHEMES.contains (urlparse (normKey raw)).scheme = false) :
    (classifyLink cfg t visited raw).2.1 =
        some (skipEvent (normLink raw) t (normKey raw)) ∨
    ∃ tc, (classifyLink cfg t visited raw).2.2 = some tc ∧
      tc.key = normKey raw := by
  rw [classifyLink_fresh_eq cfg t visited raw h0]
  split_ifs with h1 h2
  · exact Or.inl rfl
  · exact Or.inl rfl
  · cases routeLink cfg t (urlparse (normKey raw)) with
    | none => exact Or.inl rfl
    | some dsf =>
      by_cases hcr : check_rules cfg.rules (normLink raw) dsf.2.1 = true
      · exact Or.inl (by simp [hcr])
      · exact Or.inr ⟨newTask cfg (normKey raw) (normLink raw) t.link
          dsf.1 dsf.2.1 dsf.2.2, by simp [hcr], rfl⟩

/-- Keys produced and claimed by a scan: the visited set grows, the new
keys (of the Skipped events and the yielded tasks) are distinct, fresh
with respect to the incoming visited set, and recorded in the outgoing
one. -/
theorem scanLinksAux_keys (cfg : ScannerConfig) (t : Task) :
    ∀ raws visited,
      visited ⊆ (scanLinksAux cfg t raws visited).1 ∧
      ((scanLinksAux cfg t raws visited).2.1.filterMap (fun e => e.key) ++
        (scanLinksAux cfg t raws visited).2.2.map (fun tc => tc.key)).Nodup ∧
      ∀ k ∈ ((scanLinksAux cfg t raws visited).2.1.filterMap (fun e => e.key) ++
          (scanLinksAux cfg t raws visited).2.2.map (fun tc => tc.key)),
        k ∉ visited ∧ k ∈ (scanLinksAux cfg t raws visited).1 := by
  intro raws
  induction raws with
  | nil =>
    intro visited
    refine ⟨by simp [scanLinksAux], by simp [scanLinksAux], ?_⟩
    intro k hk
    simp [scanLinksAux] at hk
  | cons raw raws ih =>
    intro visited
    rcases h1 : classifyLink cfg t visited raw with ⟨v1, ev, tk⟩
    rcases h2 : scanLinksAux cfg t raws v1 with ⟨v2, evs, ts⟩
    have hred : scanLinksAux cfg t (raw :: raws) visited =
        (v2, ev.toList ++ evs, tk.toList ++ ts) := by
      rw [scanLinksAux, h1]
      simp only []
      rw [h2]
    rw [hred]
    rcases ih v1 with ⟨ihsub, ihnodup, ihmem⟩
    rw [h2] at ihsub ihnodup ihmem
    simp only [] at ihsub ihnodup ihmem ⊢
    rcases classifyLink_cases cfg t visited raw with ⟨hm, hc⟩ |
      ⟨hfresh, hv, hshape⟩
    · -- duplicate: nothing new, visited untouched
      rw [h1] at hc
      injection hc with hc1 hc2
      injection hc2 with hc2 hc3
      subst hc1; subst hc2; subst hc3
      refine ⟨ihsub, by simpa using ihnodup, ?_⟩
      intro k hk
      simp only [Option.toList_none, List.nil_append] at hk
      exact ihmem k hk
    · -- fresh: the claimed key heads the visited set
      rw [h1] at hv hshape
      simp only [] at hv hshape
      subst hv
      have hsub : visited ⊆ v2 :=
        fun x hx => ihsub (List.mem_cons_of_mem _ hx)
      have hkey_mem : normKey raw ∈ v2 := ihsub (List.mem_cons_self _ _)
      have hkey_fresh_rec :
          normKey raw ∉ (evs.filterMap (fun e => e.key) ++
            ts.map (fun tc => tc.key)) := by
        intro hc
        exact (ihmem _ hc).1 (List.mem_cons_self _ _)
      rcases hshape with hs | hs | ⟨d, sv, fl, hs⟩
      · -- silent drop
        injection hs with hs1 hs2
        subst hs1; subst hs2
        refine ⟨fun x hx => hsub hx, by simpa using ihnodup, ?_⟩
        intro k hk
        simp only [Option.toList_none, List.nil_append] at hk
        rcases ihmem k hk with ⟨hnv, hin⟩
        exact ⟨fun hc => hnv (List.mem_cons_of_mem _ hc), hin⟩
      · -- one Skipped event with the fresh key
        injection hs with hs1 hs2
        subst hs1; subst hs2
        simp only [Option.toList_some, Option.toList_none, List.nil_append,
          List.cons_append, List.filterMap_cons] at ihnodup ⊢
        refine ⟨fun x hx => hsub hx, ?_, ?_⟩
        · simp only [skipEvent]
          exact (List.nodup_cons).mpr ⟨hkey_fresh_rec, ihnodup⟩
        · intro k hk
          simp only [skipEvent] at hk
          rcases List.mem_cons.mp hk with rfl | hk
          · exact ⟨hfresh, hkey_mem⟩
          · rcases ihmem k hk with ⟨hnv, hin⟩
            exact ⟨fun hc => hnv (List.mem_cons_of_mem _ hc), hin⟩
      · -- one task with the fresh key
        injection hs with hs1 hs2
        subst hs1; subst hs2
        simp only [Option.toList_some, Option.toList_none, List.nil_append,
          List.cons_append, List.map_cons] at ihnodup ⊢
        refine ⟨fun x hx => hsub hx, ?_, ?_⟩
        · simp only [newTask]
          rw [List.nodup_middle]
          exact (List.nodup_cons).mpr ⟨hkey_fresh_rec, ihnodup⟩
        · intro k hk
          simp only [newTask] at hk
          rcases List.mem_append.mp hk with hk | hk
          · rcases ihmem k (List.mem_append.mpr (Or.inl hk)) with ⟨hnv, hin⟩
            exact ⟨fun hc => hnv (List.mem_cons_of_mem _ hc), hin⟩
          · rcases List.mem_cons.mp hk with rfl | hk
            · exact ⟨hfresh, hkey_mem⟩
            · rcases ihmem k (List.mem_append.mpr (Or.inr hk)) with ⟨hnv, hin⟩
              exact ⟨fun hc => hnv (List.mem_cons_of_mem _ hc), hin⟩

/-- Exhaustive shape of one processed task's effect on the state. -/
theorem handleTask_cases (cfg : ScannerConfig) (rest : List Task)
    (visited : List String) (events : List ResultEvent) (t0 : Task) :
    (handleTask cfg rest visited events t0 =
      { queue := rest, visited := visited,
        events := events ++ [errorEvent (reclassify cfg t0)] }) ∨
    (handleTask cfg rest visited events t0 =
      { queue := rest, visited := visited,
        events := events ++ [resultEvent (reclassify cfg t0)] }) ∨
    (handleTask cfg rest visited events t0 =
      { queue := rest ++ (scanLinks cfg visited (reclassify cfg t0)).2.2,
        visited := (scanLinks cfg visited (reclassify cfg t0)).1,
        events := events ++ [resultEvent (reclassify cfg t0)] ++
          (scanLinks cfg visited (reclassify cfg t0)).2.1 }) := by
  simp only [handleTask]
  split_ifs with h1 h2
  · exact Or.inl rfl
  · exact Or.inr (Or.inl rfl)
  · rcases hscan : scanLinks cfg visited (reclassify cfg t0) with ⟨v1, evs, ts⟩
    exact Or.inr (Or.inr rfl)

/-- One drain-loop step only grows the visited set. -/
theorem crawlStep_visited_mono (cfg : ScannerConfig) (net : Network)
    (s : CrawlState) : s.visited ⊆ (crawlStep cfg net s).visited := by
  unfold crawlStep
  cases hq : s.queue with
  | nil => exact fun x hx => hx
  | cons t rest =>
    simp only []
    rcases handleTask_cases cfg rest s.visited s.events (Task.run net t) with
      hc | hc | hc <;> rw [hc]
    · exact fun x hx => hx
    · exact fun x hx => hx
    · exact (scanLinksAux_keys cfg (reclassify cfg (Task.run net t)) _ s.visited).1

/-- One drain-loop step never discards an emitted event. -/
theorem crawlStep_events_mono (cfg : ScannerConfig) (net : Network)
    (s : CrawlState) : ∀ e ∈ s.events, e ∈ (crawlStep cfg net s).events := by
  intro e he
  unfold crawlStep
  cases hq : s.queue with
  | nil => exact he
  | cons t rest =>
    simp only []
    rcases handleTask_cases cfg rest s.visited s.events (Task.run net t) with
      hc | hc | hc <;> rw [hc]
    · exact List.mem_append_left _ he
    · exact List.mem_append_left _ he
    · exact List.mem_append_left _ (List.mem_append_left _ he)

/-- The head task of one drain-loop step is always reported: the step
appends a result or error event bearing the task's key. -/
theorem crawlStep_head_reported (cfg : ScannerConfig) (net : Network)
    (s : CrawlState) (t : Task) (rest : List Task) (hq : s.queue = t :: rest) :
    ∃ e ∈ (crawlStep cfg net s).events, e.key = some t.key := by
  have hkey : (reclassify cfg (Task.run net t)).key = t.key := by
    rw [(reclassify_preserves cfg (Task.run net t)).1,
      (task_run_preserves net t).1]
  unfold crawlStep
  rw [hq]
  simp only []
  rcases handleTask_cases cfg rest s.visited s.events (Task.run net t) with
    hc | hc | hc <;> rw [hc]
  · exact ⟨errorEvent (reclassify cfg (Task.run net t)),
      List.mem_append_right _ (List.mem_singleton_self _),
      by simp [errorEvent, hkey]⟩
  · exact ⟨resultEvent (reclassify cfg (Task.run net t)),
      List.mem_append_right _ (List.mem_singleton_self _),
      by simp [resultEvent, hkey]⟩
  · exact ⟨resultEvent (reclassify cfg (Task.run net t)),
      List.mem_append_left _
        (List.mem_append_right _ (List.mem_singleton_self _)),
      by simp [resultEvent, hkey]⟩

/-- In a run that drains naturally every pending task ends up reported:
the final trace holds an event bearing its key. -/
theorem runLoop_drained_reported (cfg : ScannerConfig) (net : Network)
    (stop : Nat → Bool) :
    ∀ fuel i s, (runLoop cfg net stop fuel i s).2 = RunExit.drained →
      ∀ t ∈ s.queue, ∃ e ∈ (runLoop cfg net stop fuel i s).1.events,
        e.key = some t.key := by
  intro fuel
  induction fuel with
  | zero =>
    intro i s hdr
    simp [runLoop] at hdr
  | succ n ih =>
    intro i s hdr t ht
    cases hq : s.queue with
    | nil =>
      rw [hq] at ht
      exact absurd ht (List.not_mem_nil t)
    | cons t0 rest =>
      simp only [runLoop, hq] at hdr ⊢
      by_cases hst : stop i = true
      · rw [if_pos hst] at hdr
        simp at hdr
      · rw [if_neg hst] at hdr ⊢
        rw [hq] at ht
        rcases List.mem_cons.mp ht with rfl | htr
        · rcases crawlStep_head_reported cfg net s t rest hq with ⟨e, hee, hek⟩
          exact ⟨e, runLoop_inv cfg net stop (fun s2 => e ∈ s2.events)
            (fun s2 hs2 => crawlStep_events_mono cfg net s2 e hs2)
            n (i + 1) (crawlStep cfg net s) hee, hek⟩
        · have hrest : t ∈ (crawlStep cfg net s).queue := by
            unfold crawlStep
            rw [hq]
            simp only []
            rcases handleTask_cases cfg rest s.visited s.events
              (Task.run net t0) with hc | hc | hc <;> rw [hc]
            · exact htr
            · exact htr
            · exact List.mem_append_left _ htr
          exact ih (i + 1) (crawlStep cfg net s) hdr t hrest

/-- The keys accounted for in a state: one per emitted non-Done event plus
one per still-pending task. -/
def allKeys (s : CrawlState) : List String :=
  s.events.filterMap (fun e => e.key) ++ s.queue.map (fun t => t.key)

/-- The accounting invariant behind "at most one event per normalized
link": the keys of emitted events and pending tasks are pairwise distinct
and all recorded in the visited set. -/
def KeyInv (s : CrawlState) : Prop :=
  (allKeys s).Nodup ∧ ∀ k ∈ allKeys s, k ∈ s.visited

theorem perm_shuffle {α : Type} (a : α) (E S R T : List α) :
    ((E ++ [a] ++ S) ++ (R ++ T)).Perm ((E ++ a :: R) ++ (S ++ T)) := by
  have h1 : ((S ++ R) ++ T).Perm ((R ++ S) ++ T) :=
    (List.perm_append_comm).append_right T
  have h2 : ((E ++ [a]) ++ ((S ++ R) ++ T)).Perm
      ((E ++ [a]) ++ ((R ++ S) ++ T)) := h1.append_left (E ++ [a])
  have e1 : (E ++ [a] ++ S) ++ (R ++ T) = (E ++ [a]) ++ ((S ++ R) ++ T) := by
    simp [List.append_assoc]
  have e2 : (E ++ [a]) ++ ((R ++ S) ++ T) = (E ++ a :: R) ++ (S ++ T) := by
    simp [List.append_assoc]
  rw [e1, ← e2]
  exact h2

theorem crawlStep_keyInv (cfg : ScannerConfig) (net : Network)
    (s : CrawlState) (h : KeyInv s) : KeyInv (crawlStep cfg net s) := by
  unfold crawlStep
  cases hq : s.queue with
  | nil => exact h
  | cons t rest =>
    have hkey : (reclassify cfg (Task.run net t)).key = t.key := by
      rw [(reclassify_preserves cfg (Task.run net t)).1,
        (task_run_preserves net t).1]
    rcases h with ⟨hnd, hmem⟩
    rw [allKeys, hq] at hnd hmem
    simp only [List.map_cons] at hnd hmem
    simp only []
    rcases handleTask_cases cfg rest s.visited s.events (Task.run net t) with
      hc | hc | hc <;> rw [hc]
    · constructor
      · show ((s.events ++ [errorEvent (reclassify cfg (Task.run net t))]).filterMap
            (fun e => e.key) ++ rest.map (fun tc => tc.key)).Nodup
        rw [List.filterMap_append]
        simp only [errorEvent, hkey, List.filterMap_cons, List.filterMap_nil]
        rw [List.append_assoc]
        exact hnd
      · intro k hk
        rw [allKeys] at hk
        simp only [List.filterMap_append, errorEvent, hkey, List.filterMap_cons,
          List.filterMap_nil, List.append_assoc] at hk
        exact hmem k hk
    · constructor
      · show ((s.events ++ [resultEvent (reclassify cfg (Task.run net t))]).filterMap
            (fun e => e.key) ++ rest.map (fun tc => tc.key)).Nodup
        rw [List.filterMap_append]
        simp only [resultEvent, hkey, List.filterMap_cons, List.filterMap_nil]
        rw [List.append_assoc]
        exact hnd
      · intro k hk
        rw [allKeys] at hk
        simp only [List.filterMap_append, resultEvent, hkey, List.filterMap_cons,
          List.filterMap_nil, List.append_assoc] at hk
        exact hmem k hk
    · rcases scanLinksAux_keys cfg (reclassify cfg (Task.run net t))
        (reclassify cfg (Task.run net t)).links s.visited with ⟨hsub, hnodup2, hm2⟩
      set t2 := reclassify cfg (Task.run net t) with ht2
      set SK := (scanLinks cfg s.visited t2).2.1.filterMap (fun e => e.key) with hSK
      set TK := (scanLinks cfg s.visited t2).2.2.map (fun tc => tc.key) with hTK
      have hEq : allKeys
          { queue := rest ++ (scanLinks cfg s.visited t2).2.2,
            visited := (scanLinks cfg s.visited t2).1,
            events := s.events ++ [resultEvent t2] ++
              (scanLinks cfg s.visited t2).2.1 } =
          (s.events.filterMap (fun e => e.key) ++ [t.key] ++ SK) ++
            (rest.map (fun tc => tc.key) ++ TK) := by
        rw [allKeys]
        simp only [List.filterMap_append, List.map_append, resultEvent, hkey,
          List.filterMap_cons, List.filterMap_nil]
      have hperm := perm_shuffle t.key (s.events.filterMap (fun e => e.key)) SK
        (rest.map (fun tc => tc.key)) TK
      have hnodup_target :
          ((s.events.filterMap (fun e => e.key) ++
            t.key :: rest.map (fun tc => tc.key)) ++ (SK ++ TK)).Nodup := by
        refine List.Nodup.append hnd ?_ ?_
        · rw [hSK, hTK]
          simp only [scanLinks]
          exact hnodup2
        · intro a ha hb
          have hav : a ∈ s.visited := hmem a ha
          have : a ∉ s.visited := by
            rcases hm2 a (by rw [hSK, hTK] at hb; simpa [scanLinks] using hb) with
              ⟨hnv, _⟩
            exact hnv
          exact this hav
      constructor
      · rw [hEq]
        exact (hperm.nodup_iff).mpr hnodup_target
      · intro k hk
        rw [hEq] at hk
        have hk2 := hperm.subset hk
        rcases List.mem_append.mp hk2 with hk2 | hk2
        · exact hsub (by simpa [scanLinks] using (hmem k hk2))
        · rcases hm2 k (by rw [hSK, hTK] at hk2; simpa [scanLinks] using hk2) with
            ⟨_, hin⟩
          simpa [scanLinks] using hin

/-- Claim C4 (amended): the visited set only grows along the crawl; two
raw links differing only by fragment share one visited entry, the second
occurrence being dropped with no event and no task; over a whole run from
the initial state the keys of the emitted events are pairwise distinct —
at most one ResultEvent per unique fragment-stripped link; and exactness
holds except for the silent drops and early stops: a fresh discovered link
whose scheme is not in the ignored set immediately yields its Skipped
event or a pending task under its key, emitted events persist to the end
of the run, and in a naturally-drained run every pending task is reported
by an event bearing its key — hence, with the distinctness, by exactly
one. -/
theorem visited_monotone_one_event_per_link (cfg : ScannerConfig)
    (net : Network) (stop : Nat → Bool) (fuel : Nat) :
    (∀ s : CrawlState, s.visited ⊆ (runLoop cfg net stop fuel 0 s).1.visited) ∧
    (∀ t visited r1 r2, (urldefrag r1).1 = (urldefrag r2).1 →
      (urldefrag r1).1 ∈ (classifyLink cfg t visited r1).1 ∧
      classifyLink cfg t ((classifyLink cfg t visited r1).1) r2 =
        ((classifyLink cfg t visited r1).1, none, none)) ∧
    ((runLoop cfg net stop fuel 0 (initState cfg)).1.events.filterMap
        (fun e => e.key)).Nodup ∧
    (∀ t visited raw, normKey raw ∉ visited →
      IGNORE_SCHEMES.contains (urlparse (normKey raw)).scheme = false →
      ((classifyLink cfg t visited raw).2.1 =
          some (skipEvent (normLink raw) t (normKey raw)) ∨
        ∃ tc, (classifyLink cfg t visited raw).2.2 = some tc ∧
          tc.key = normKey raw)) ∧
    (∀ i s e, e ∈ s.events → e ∈ (runLoop cfg net stop fuel i s).1.events) ∧
    (∀ i s, (runLoop cfg net stop fuel i s).2 = RunExit.drained →
      ∀ t ∈ s.queue, ∃ e ∈ (runLoop cfg net stop fuel i s).1.events,
        e.key = some t.key) := by
  refine ⟨?_, ?_, ?_, ?_, ?_, ?_⟩
  · intro s
    exact runLoop_inv cfg net stop (fun s2 => s.visited ⊆ s2.visited)
      (fun s2 hs2 =>
        fun x hx => crawlStep_visited_mono cfg net s2 (hs2 hx))
      fuel 0 s (fun x hx => hx)
  · intro t visited r1 r2 hfrag
    refine ⟨classifyLink_mem cfg t visited r1, ?_⟩
    apply classifyLink_visited
    show (urldefrag r2).1 ∈ (classifyLink cfg t visited r1).1
    rw [← hfrag]
    exact classifyLink_mem cfg t visited r1
  · have hinv := runLoop_inv cfg net stop KeyInv
      (fun s hs => crawlStep_keyInv cfg net s hs)
      fuel 0 (initState cfg) ?_
    · exact List.Nodup.sublist (List.sublist_append_left _ _) hinv.1
    · constructor
      · simp [allKeys, initState, seedTask]
      · intro k hk
        simp [allKeys, initState, seedTask] at hk
        simp [initState, hk]
  · intro t visited raw h0 hig
    exact classifyLink_total cfg t visited raw h0 hig
  · intro i s e he
    exact runLoop_inv cfg net stop (fun s2 => e ∈ s2.events)
      (fun s2 hs2 => crawlStep_events_mono cfg net s2 e hs2) fuel i s he
  · intro i s hdr t ht
    exact runLoop_drained_reported cfg net stop fuel i s hdr t ht

/-- A state mid-crawl with one emitted event and one pending task, for
exercising event persistence and drained-run completeness. -/
def stateC4 : CrawlState :=
  { queue := [seedTask cfgA], visited := [cfgA.url], events := [doneEvent] }

/-- Witness for C4 (amended): on the concrete one-page crawl, the visited
set persists, two fragment-variants of one page share one entry and the
second is silent, the event keys are distinct, a fresh off-domain http
link yields its Skipped event or task, an already-emitted event survives
the run, and the pending task of a draining state gets reported. -/
theorem visited_monotone_one_event_per_link_witness :
    (initState cfgA).visited ⊆
      (runLoop cfgA netFail stopNever 3 0 (initState cfgA)).1.visited ∧
    (urldefrag ("http://a.com/p#f1")).1 ∈
      (classifyLink cfgA (seedTask cfgA) [] ("http://a.com/p#f1")).1 ∧
    classifyLink cfgA (seedTask cfgA)
        ((classifyLink cfgA (seedTask cfgA) [] ("http://a.com/p#f1")).1)
        ("http://a.com/p#f2") =
      ((classifyLink cfgA (seedTask cfgA) [] ("http://a.com/p#f1")).1, none,
        none) ∧
    ((runLoop cfgA netFail stopNever 3 0 (initState cfgA)).1.events.filterMap
        (fun e => e.key)).Nodup ∧
    ((classifyLink cfgA (seedTask cfgA) [] ("http://b.com/q")).2.1 =
        some (skipEvent (normLink ("http://b.com/q")) (seedTask cfgA)
          (normKey ("http://b.com/q"))) ∨
      ∃ tc, (classifyLink cfgA (seedTask cfgA) [] ("http://b.com/q")).2.2 =
          some tc ∧ tc.key = normKey ("http://b.com/q")) ∧
    doneEvent ∈ (runLoop cfgA netFail stopNever 3 0 stateC4).1.events ∧
    (∀ t ∈ stateC4.queue,
      ∃ e ∈ (runLoop cfgA netFail stopNever 3 0 stateC4).1.events,
        e.key = some t.key) :=
  ⟨(visited_monotone_one_event_per_link cfgA netFail stopNever 3).1
      (initState cfgA),
   ((visited_monotone_one_event_per_link cfgA netFail stopNever 3).2.1
      (seedTask cfgA) [] ("http://a.com/p#f1") ("http://a.com/p#f2")
      (by decide)).1,
   ((visited_monotone_one_event_per_link cfgA netFail stopNever 3).2.1
      (seedTask cfgA) [] ("http://a.com/p#f1") ("http://a.com/p#f2")
      (by decide)).2,
   (visited_monotone_one_event_per_link cfgA netFail stopNever 3).2.2.1,
   (visited_monotone_one_event_per_link cfgA netFail stopNever 3).2.2.2.1
      (seedTask cfgA) [] ("http://b.com/q") (by decide) (by decide),
   (visited_monotone_one_event_per_link cfgA netFail stopNever 3).2.2.2.2.1
      0 stateC4 doneEvent (List.mem_singleton_self _),
   (visited_monotone_one_event_per_link cfgA netFail stopNever 3).2.2.2.2.2
      0 stateC4 (by decide)⟩

/-- A network whose every page is a 200 HTML page linking only to
`mailto:bob@x`. -/
def netM : Network :=
  { head := fun l _ _ => Except.ok
      { url := l, status := 200, contentType := "text/html" },
    get := fun _ _ _ => Except.ok ["mailto:bob@x"] }

/-- Counterexample for C4 as stated: the crawl completes naturally, the
link `mailto:bob@x` is discovered on the seed page, yet no ResultEvent at
all is emitted for it (its scheme is in the ignored set) — not "exactly
one". -/
theorem one_event_per_link_counterexample :
    (scannerRun cfgA netM stopNever 3).2 = RunExit.drained ∧
    "mailto:bob@x" ∈ (Task.run netM (seedTask cfgA)).links ∧
    List.countP (fun e => e.key == some ("mailto:bob@x"))
      (scannerRun cfgA netM stopNever 3).1 = 0 ∧
    List.countP (fun e => e.link == "mailto:bob@x")
      (scannerRun cfgA netM stopNever 3).1 = 0 := by
  decide

/-! ## Claim C3: depth bounding -/

/-- What an accepted route means: internal keeps the depth, external
increments it and requires the originating depth within the limit. -/
theorem routeLink_spec (cfg : ScannerConfig) (t : Task) (parsed : UrlParts)
    (dsf : Nat × Nat × Bool) (h : routeLink cfg t parsed = some dsf) :
    (parsed.netloc = scannerDomain cfg ∧
      dsf = (t.depth, INTERNAL, cfg.internal == FOLLOW)) ∨
    (parsed.netloc ≠ scannerDomain cfg ∧ t.depth ≤ cfg.depth ∧
      dsf = (t.depth + 1, EXTERNAL, cfg.external == FOLLOW)) := by
  unfold routeLink at h
  by_cases h1 : parsed.netloc = scannerDomain cfg
  · rw [if_pos h1] at h
    by_cases h2 : cfg.internal = IGNORE
    · rw [if_pos h2] at h
      cases h
    · rw [if_neg h2] at h
      injection h with h4
      subst h4
      exact Or.inl ⟨h1, rfl⟩
  · rw [if_neg h1] at h
    by_cases h3 : cfg.external = IGNORE ∨ cfg.depth < t.depth
    · rw [if_pos h3] at h
      cases h
    · rw [if_neg h3] at h
      injection h with h4
      subst h4
      refine Or.inr ⟨h1, ?_, rfl⟩
      push_neg at h3
      exact h3.2

/-- The executed task's links are nothing or exactly the page's
outlinks. -/
theorem task_run_links (cfg : ScannerConfig) (net : Network) (t : Task)
    (hl : t.links = []) (ht : t.timeout = cfg.timeout)
    (hr : t.redirect = cfg.redirect) :
    (Task.run net t).links = [] ∨
    (Task.run net t).links = outlinks cfg net t.link := by
  unfold Task.run outlinks
  rw [ht, hr]
  cases hh : net.head t.link cfg.timeout cfg.redirect with
  | error e =>
    left
    simpa using hl
  | ok resp =>
    simp only []
    split_ifs with h1 h2 h3 <;> try (left; simpa using hl)
    cases hg : net.get resp.url cfg.timeout cfg.redirect with
    | error e => left; simpa using hl
    | ok ls => right; simpa using hl

/-- Spec of a task yielded by one classification step: it is the newTask
for the normalized link, and its depth tracks the originating task's depth
plus the external hop increment (with the depth guard for externals). -/
theorem classifyLink_task_spec (cfg : ScannerConfig) (t : Task)
    (visited : List String) (raw : String) (tc : Task)
    (h : (classifyLink cfg t visited raw).2.2 = some tc) :
    (∃ sv fl, tc = newTask cfg (normKey raw) (normLink raw) t.link tc.depth sv fl) ∧
    ((hopInc cfg raw = 0 ∧ tc.depth = t.depth) ∨
     (hopInc cfg raw = 1 ∧ tc.depth = t.depth + 1 ∧ t.depth ≤ cfg.depth)) := by
  by_cases hm : normKey raw ∈ visited
  · rw [classifyLink_visited cfg t visited raw hm] at h
    cases h
  · rw [classifyLink_fresh_eq cfg t visited raw hm] at h
    simp only [] at h
    by_cases h1 : (urlparse (normKey raw)).query ≠ "" ∧ cfg.query = false
    · rw [if_pos h1] at h
      exact Option.noConfusion h
    · rw [if_neg h1] at h
      by_cases h2 : ACCEPT_SCHEMES.contains (urlparse (normKey raw)).scheme = false
      · rw [if_pos h2] at h
        by_cases h3 : IGNORE_SCHEMES.contains (urlparse (normKey raw)).scheme = false
        · rw [if_pos h3] at h
          exact Option.noConfusion h
        · rw [if_neg h3] at h
          exact Option.noConfusion h
      · rw [if_neg h2] at h
        cases hrt : routeLink cfg t (urlparse (normKey raw)) with
        | none =>
          rw [hrt] at h
          exact Option.noConfusion h
        | some dsf =>
          rw [hrt] at h
          simp only [] at h
          by_cases h4 : check_rules cfg.rules (normLink raw) dsf.2.1 = true
          · rw [if_pos h4] at h
            exact Option.noConfusion h
          · rw [if_neg h4] at h
            simp only [Option.some.injEq] at h
            rcases routeLink_spec cfg t (urlparse (normKey raw)) dsf hrt with
              ⟨hd, hdsf⟩ | ⟨hd, hdep, hdsf⟩
            · subst hdsf
              have hdeq : tc.depth = t.depth := by
                rw [← h]
                rfl
              constructor
              · refine ⟨INTERNAL, cfg.internal == FOLLOW, ?_⟩
                rw [hdeq, ← h]
              · left
                constructor
                · unfold hopInc
                  rw [if_pos hd]
                · exact hdeq
            · subst hdsf
              have hdeq : tc.depth = t.depth + 1 := by
                rw [← h]
                rfl
              constructor
              · refine ⟨EXTERNAL, cfg.external == FOLLOW, ?_⟩
                rw [hdeq, ← h]
              · right
                refine ⟨?_, hdeq, hdep⟩
                unfold hopInc
                rw [if_neg hd]

/-- The local external-candidate rule of scan_links (C3's classification
half): past the visited/query/scheme checks, an external-domain candidate
is skipped when the external policy is Ignore or the originating task's
depth exceeds the max depth, and otherwise (if the rule filter accepts it)
becomes a task at depth + 1. -/
theorem classifyLink_external_rule (cfg : ScannerConfig) (t : Task)
    (visited : List String) (raw : String)
    (h0 : normKey raw ∉ visited)
    (hq : ¬((urlparse (normKey raw)).query ≠ "" ∧ cfg.query = false))
    (hs : ACCEPT_SCHEMES.contains (urlparse (normKey raw)).scheme = true)
    (hd : (urlparse (normKey raw)).netloc ≠ scannerDomain cfg) :
    ((cfg.external = IGNORE ∨ cfg.depth < t.depth) →
      classifyLink cfg t visited raw =
        (normKey raw :: visited,
          some (skipEvent (normLink raw) t (normKey raw)), none)) ∧
    (¬(cfg.external = IGNORE ∨ cfg.depth < t.depth) →
      check_rules cfg.rules (normLink raw) EXTERNAL = false →
      classifyLink cfg t visited raw =
        (normKey raw :: visited, none,
          some (newTask cfg (normKey raw) (normLink raw) t.link (t.depth + 1)
            EXTERNAL (cfg.external == FOLLOW)))) := by
  have hsf : ¬(ACCEPT_SCHEMES.contains (urlparse (normKey raw)).scheme = false) := by
    rw [hs]; simp
  constructor
  · intro hskip
    rw [classifyLink_fresh_eq cfg t visited raw h0, if_neg hq, if_neg hsf]
    have hroute : routeLink cfg t (urlparse (normKey raw)) = none := by
      unfold routeLink
      rw [if_neg hd, if_pos hskip]
    rw [hroute]
  · intro hgo hcr
    rw [classifyLink_fresh_eq cfg t visited raw h0, if_neg hq, if_neg hsf]
    have hroute : routeLink cfg t (urlparse (normKey raw)) =
        some (t.depth + 1, EXTERNAL, cfg.external == FOLLOW) := by
      unfold routeLink
      rw [if_neg hd, if_neg hgo]
    rw [hroute]
    simp only []
    rw [if_neg (by rw [hcr]; simp)]

/-- The whole-crawl depth invariant: every pending task is an un-executed
task whose (key, link, depth) is realized by a chain through the site
graph with depth-many external hops, bounded by max depth + 1; every
result-site event was produced from such a task. -/
def ReachInv (cfg : ScannerConfig) (net : Network) (s : CrawlState) : Prop :=
  (∀ t ∈ s.queue, t.links = [] ∧ t.error = none ∧ t.timeout = cfg.timeout ∧
    t.redirect = cfg.redirect ∧ Reach cfg net t.key t.link t.depth ∧
    t.depth ≤ cfg.depth + 1) ∧
  (∀ e ∈ s.events, e.site = Site.result →
    ∃ k l d, e.key = some k ∧ Reach cfg net k l d ∧ d ≤ cfg.depth + 1)

/-- Tasks yielded by scanning links of a reachable page are reachable one
hop further, still within the depth bound. -/
theorem scanLinksAux_tasks_reach (cfg : ScannerConfig) (net : Network)
    (t2 : Task) (l0 : String)
    (hdep : t2.depth ≤ cfg.depth + 1) :
    ∀ raws visited, (∀ r ∈ raws, r ∈ outlinks cfg net l0) →
      Reach cfg net t2.key l0 t2.depth →
      ∀ tc ∈ (scanLinksAux cfg t2 raws visited).2.2,
        tc.links = [] ∧ tc.error = none ∧ tc.timeout = cfg.timeout ∧
        tc.redirect = cfg.redirect ∧ Reach cfg net tc.key tc.link tc.depth ∧
        tc.depth ≤ cfg.depth + 1 := by
  intro raws
  induction raws with
  | nil =>
    intro visited _ _ tc htc
    simp [scanLinksAux] at htc
  | cons raw raws ih =>
    intro visited hsub hreach0 tc htc
    rcases h1 : classifyLink cfg t2 visited raw with ⟨v1, ev, tk⟩
    rcases h2 : scanLinksAux cfg t2 raws v1 with ⟨v2, evs, ts⟩
    have hred : scanLinksAux cfg t2 (raw :: raws) visited =
        (v2, ev.toList ++ evs, tk.toList ++ ts) := by
      rw [scanLinksAux, h1]
      simp only []
      rw [h2]
    rw [hred] at htc
    simp only [] at htc
    rcases List.mem_append.mp htc with htc | htc
    · -- the head's yielded task
      cases tk with
      | none => simp at htc
      | some tc0 =>
        simp only [Option.toList_some] at htc
        rcases List.mem_singleton.mp htc with rfl
        have hspec := classifyLink_task_spec cfg t2 visited raw tc
          (by simp [h1])
        rcases hspec with ⟨⟨sv, fl, htcdef⟩, hdepth⟩
        have hrawmem : raw ∈ outlinks cfg net l0 :=
          hsub raw (List.mem_cons_self _ _)
        have hstep := Reach.step hreach0 hrawmem
        rcases hdepth with ⟨hinc, hdeq⟩ | ⟨hinc, hdeq, hbound⟩
        · rw [htcdef]
          refine ⟨rfl, rfl, rfl, rfl, ?_, ?_⟩
          · show Reach cfg net (normKey raw) (normLink raw) tc.depth
            have hh2 : t2.depth + hopInc cfg raw = tc.depth := by
              simp [hinc, hdeq]
            rw [← hh2]
            exact hstep
          · show tc.depth ≤ cfg.depth + 1
            rw [hdeq]
            exact hdep
        · rw [htcdef]
          refine ⟨rfl, rfl, rfl, rfl, ?_, ?_⟩
          · show Reach cfg net (normKey raw) (normLink raw) tc.depth
            have hh2 : t2.depth + hopInc cfg raw = tc.depth := by
              simp [hinc, hdeq]
            rw [← hh2]
            exact hstep
          · show tc.depth ≤ cfg.depth + 1
            rw [hdeq]
            omega
    · exact ih v1 (fun r hrm => hsub r (List.mem_cons_of_mem _ hrm)) hreach0
        tc (by rw [h2]; exact htc)

theorem initState_reachInv (cfg : ScannerConfig) (net : Network) :
    ReachInv cfg net (initState cfg) := by
  constructor
  · intro t ht
    simp only [initState, List.mem_singleton] at ht
    subst ht
    exact ⟨rfl, rfl, rfl, rfl, Reach.seed, Nat.zero_le _⟩
  · intro e he
    simp [initState] at he

theorem crawlStep_reachInv (cfg : ScannerConfig) (net : Network)
    (s : CrawlState) (h : ReachInv cfg net s) :
    ReachInv cfg net (crawlStep cfg net s) := by
  unfold crawlStep
  cases hq : s.queue with
  | nil => exact h
  | cons t rest =>
    simp only []
    rcases h with ⟨hque, hev⟩
    have hrest : ∀ t2 ∈ rest, t2.links = [] ∧ t2.error = none ∧
        t2.timeout = cfg.timeout ∧ t2.redirect = cfg.redirect ∧
        Reach cfg net t2.key t2.link t2.depth ∧ t2.depth ≤ cfg.depth + 1 :=
      fun t2 ht2 => hque t2 (by rw [hq]; exact List.mem_cons_of_mem _ ht2)
    rcases hque t (by rw [hq]; exact List.mem_cons_self _ _) with
      ⟨htl, hterr, htto, htrd, htreach, htdep⟩
    set t2 := reclassify cfg (Task.run net t) with ht2def
    have ht2key : t2.key = t.key := by
      rw [ht2def, (reclassify_preserves cfg (Task.run net t)).1,
        (task_run_preserves net t).1]
    have ht2depth : t2.depth = t.depth := by
      rw [ht2def, (reclassify_preserves cfg (Task.run net t)).2.1,
        (task_run_preserves net t).2.1]
    have hresEv : ∀ events2 : List ResultEvent,
        (∀ e ∈ events2, e.site = Site.result →
          ∃ k l d, e.key = some k ∧ Reach cfg net k l d ∧ d ≤ cfg.depth + 1) →
        ∀ e ∈ events2 ++ [resultEvent t2], e.site = Site.result →
          ∃ k l d, e.key = some k ∧ Reach cfg net k l d ∧ d ≤ cfg.depth + 1 := by
      intro events2 hbase e he hsite
      rcases List.mem_append.mp he with he | he
      · exact hbase e he hsite
      · rcases List.mem_singleton.mp he with rfl
        exact ⟨t.key, t.link, t.depth, by rw [resultEvent]; rw [ht2key],
          htreach, htdep⟩
    rcases handleTask_cases cfg rest s.visited s.events (Task.run net t) with
      hc | hc | hc <;> rw [← ht2def] at hc <;> rw [hc]
    · refine ⟨hrest, ?_⟩
      intro e he hsite
      rcases List.mem_append.mp he with he | he
      · exact hev e he hsite
      · rcases List.mem_singleton.mp he with rfl
        rw [errorEvent] at hsite
        cases hsite
    · exact ⟨hrest, hresEv s.events hev⟩
    · constructor
      · intro tc htc
        rcases List.mem_append.mp htc with htc | htc
        · exact hrest tc htc
        · -- a freshly scanned task
          have ht2links : t2.links = [] ∨
              t2.links = outlinks cfg net t.link := by
            rw [ht2def, (reclassify_preserves cfg (Task.run net t)).2.2.2.1]
            exact task_run_links cfg net t htl htto htrd
          have hsub2 : ∀ r ∈ t2.links, r ∈ outlinks cfg net t.link := by
            rcases ht2links with hnil | heq
            · rw [hnil]
              intro r hr
              simp at hr
            · rw [heq]
              intro r hr
              exact hr
          have hreach0 : Reach cfg net t2.key t.link t2.depth := by
            rw [ht2key, ht2depth]
            exact htreach
          have hdep2 : t2.depth ≤ cfg.depth + 1 := by
            rw [ht2depth]
            exact htdep
          exact scanLinksAux_tasks_reach cfg net t2 t.link hdep2 t2.links
            s.visited hsub2 hreach0 tc (by simpa [scanLinks] using htc)
      · intro e he hsite
        rcases List.mem_append.mp he with he | he
        · exact hresEv s.events hev e he hsite
        · rcases scanLinksAux_events_shape cfg t2 t2.links s.visited e he with
            ⟨l, k, rfl⟩
          rw [skipEvent] at hsite
          cases hsite

/-- Claim C3 (corrected): the external-candidate half of the depth rule —
past the visited/query/scheme checks, an off-domain candidate discovered
on a task at depth d is Skipped when the external policy is Ignore or d
exceeds the configured max depth D, and otherwise (provided the rule
filter accepts it) is enqueued at depth d + 1 — and the whole-crawl
consequence: a link whose every chain from the seed needs more than D + 1
external-domain hops never receives a result-site (Completed) event.  The
boundary is D + 1, not D as the spec states: the depth check happens
before the increment, so depth-(D + 1) tasks do run (see the
counterexample). -/
theorem depth_boundary (cfg : ScannerConfig) (net : Network)
    (stop : Nat → Bool) (fuel : Nat) (L : String) (t : Task)
    (visited : List String) (raw : String)
    (h0 : normKey raw ∉ visited)
    (hq : ¬((urlparse (normKey raw)).query ≠ "" ∧ cfg.query = false))
    (hsc : ACCEPT_SCHEMES.contains (urlparse (normKey raw)).scheme = true)
    (hdom : (urlparse (normKey raw)).netloc ≠ scannerDomain cfg)
    (hfar : ∀ l d, Reach cfg net L l d → cfg.depth + 1 < d) :
    (((cfg.external = IGNORE ∨ cfg.depth < t.depth) →
        classifyLink cfg t visited raw =
          (normKey raw :: visited,
            some (skipEvent (normLink raw) t (normKey raw)), none)) ∧
      (¬(cfg.external = IGNORE ∨ cfg.depth < t.depth) →
        check_rules cfg.rules (normLink raw) EXTERNAL = false →
        classifyLink cfg t visited raw =
          (normKey raw :: visited, none,
            some (newTask cfg (normKey raw) (normLink raw) t.link
              (t.depth + 1) EXTERNAL (cfg.external == FOLLOW))))) ∧
    (∀ e ∈ (runLoop cfg net stop fuel 0 (initState cfg)).1.events,
      e.site = Site.result → e.key ≠ some L) := by
  refine ⟨classifyLink_external_rule cfg t visited raw h0 hq hsc hdom, ?_⟩
  intro e he hsite hkey
  have hInv := runLoop_inv cfg net stop (ReachInv cfg net)
    (fun s hs2 => crawlStep_reachInv cfg net s hs2) fuel 0 (initState cfg)
    (initState_reachInv cfg net)
  rcases hInv.2 e he hsite with ⟨k, l, d, hk, hr, hdle⟩
  rw [hkey] at hk
  injection hk with hk
  subst hk
  exact absurd (hfar l d hr) (by omega)

/-- With the always-failing network every page offers no links, so the
only reachable point is the seed itself at zero hops. -/
theorem reach_netFail (cfg : ScannerConfig) (k l : String) (d : Nat)
    (h : Reach cfg netFail k l d) : k = cfg.url ∧ l = cfg.url ∧ d = 0 := by
  induction h with
  | seed => exact ⟨rfl, rfl, rfl⟩
  | @step k0 l0 d0 raw0 h1 h2 ih =>
    exfalso
    simp [outlinks, netFail] at h2

/-- A task five hops deep, past cfgA's max depth of 1. -/
def taskC3 : Task := { seedTask cfgA with depth := 5 }

/-- Witness for C3: on the failing network the only reachable point is the
seed, so `http://z.com/` is vacuously beyond every depth and indeed gets
no result event; and an off-domain candidate met on a depth-5 task (max
depth 1) is Skipped. -/
theorem depth_boundary_witness :
    classifyLink cfgA taskC3 [] ("http://b.com/x") =
      (normKey ("http://b.com/x") :: [],
        some (skipEvent (normLink ("http://b.com/x")) taskC3
          (normKey ("http://b.com/x"))), none) ∧
    (∀ e ∈ (runLoop cfgA netFail stopNever 3 0 (initState cfgA)).1.events,
      e.site = Site.result → e.key ≠ some ("http://z.com/")) := by
  have h := depth_boundary cfgA netFail stopNever 3 ("http://z.com/")
    taskC3 [] ("http://b.com/x") (by decide) (by decide) (by decide)
    (by decide)
    (fun l d hr =>
      absurd (reach_netFail cfgA ("http://z.com/") l d hr).1 (by decide))
  exact ⟨h.1.1 (by decide), h.2⟩

/-- A three-page chain: the seed page `http://a.com/` links to
`http://b.com/`, which links to `http://c.com/`, which links nowhere;
every HEAD succeeds in place with an HTML 200. -/
def netChain : Network :=
  { head := fun l _ _ => Except.ok
      { url := l, status := 200, contentType := "text/html" },
    get := fun l _ _ =>
      if l = "http://a.com/" then Except.ok ["http://b.com/"]
      else if l = "http://b.com/" then Except.ok ["http://c.com/"]
      else Except.ok [] }

/-- cfgA with the external policy raised to Follow. -/
def cfgF : ScannerConfig := { cfgA with external := FOLLOW }

/-- Under `netChain` the reachable points are exactly the three pages, at
0, 1 and 2 external hops. -/
theorem reach_netChain (k l : String) (d : Nat)
    (h : Reach cfgF netChain k l d) :
    (k = "http://a.com/" ∧ l = "http://a.com/" ∧ d = 0) ∨
    (k = "http://b.com/" ∧ l = "http://b.com/" ∧ d = 1) ∨
    (k = "http://c.com/" ∧ l = "http://c.com/" ∧ d = 2) := by
  induction h with
  | seed => exact Or.inl ⟨rfl, rfl, rfl⟩
  | @step k0 l0 d0 raw0 h1 h2 ih =>
    rcases ih with ⟨hk, hl, hd⟩ | ⟨hk, hl, hd⟩ | ⟨hk, hl, hd⟩
    · subst hl hd
      have e1 : outlinks cfgF netChain ("http://a.com/") =
          ["http://b.com/"] := by decide
      rw [e1] at h2
      have hr0 : raw0 = "http://b.com/" := List.mem_singleton.mp h2
      subst hr0
      decide
    · subst hl hd
      have e2 : outlinks cfgF netChain ("http://b.com/") =
          ["http://c.com/"] := by decide
      rw [e2] at h2
      have hr0 : raw0 = "http://c.com/" := List.mem_singleton.mp h2
      subst hr0
      decide
    · subst hl hd
      have e3 : outlinks cfgF netChain ("http://c.com/") = [] := by decide
      rw [e3] at h2
      exact absurd h2 (List.not_mem_nil raw0)

/-- Counterexample to C3's boundary as the spec states it: with max depth
1 and external policy Follow, `http://c.com/` is reachable only by a chain
of 2 (more than 1) external hops, yet the crawl drains naturally and emits
exactly one result-site (Completed) event for it — the depth check fires
only past depth D + 1. -/
theorem depth_boundary_counterexample :
    (∀ l d, Reach cfgF netChain ("http://c.com/") l d → cfgF.depth < d) ∧
    (scannerRun cfgF netChain stopNever 6).2 = RunExit.drained ∧
    List.countP (fun e => e.site == Site.result &&
        e.key == some ("http://c.com/"))
      (scannerRun cfgF netChain stopNever 6).1 = 1 := by
  refine ⟨?_, by decide, by decide⟩
  intro l d hr
  rcases reach_netChain ("http://c.com/") l d hr with
    ⟨hk, hl, hd⟩ | ⟨hk, hl, hd⟩ | ⟨hk, hl, hd⟩
  · exact absurd hk (by decide)
  · exact absurd hk (by decide)
  · subst hd
    decide

end LinkScanner
